import Mathlib

/-!
Verification development for the jsonrpc-proxy repository.

The definitions below are a shallow embedding of the source files:
  - src/plugins/upstream/src/shared.rs      (struct Shared: pending / subscriptions tables)
  - src/plugins/upstream/src/helpers.rs     (peek_subscription_id, peek_id, peek_result, get_id, ...)
  - src/plugins/ws-upstream/src/lib.rs      (WebSocketHandler::process_message, WebSocket::subscribe)
  - src/plugins/simple-cache/src/lib.rs     (caching Middleware)
  - src/plugins/permissioning/src/lib.rs    (permissioning Middleware)
  - src/ethereum-proxy/plugins/accounts/src/lib.rs (signing Middleware)
  - src/ethereum-proxy/plugins/accounts/transaction/src/lib.rs (RLP encoding of transactions)

JSON text frames are represented by their parsed JSON value (a text frame that
is not valid JSON behaves like a JSON value on which every peek fails, e.g.
Json.null).  Machine integers are modelled as Nat with explicit bounds or
modular reduction where the Rust code can overflow.  External crates
(serde-json / jsonrpc-core serde derivations, jsonrpc-pubsub sessions,
oneshot channels) are embedded as the interfaces the repository consumes,
following their documented behaviour.
-/

/-- Model of a parsed JSON document (serde_json::Value).  Numbers are modelled
as integers: every value appearing in the claims (ids, subscription ids,
chain ids) is integral. -/
inductive Json where
  | null : Json
  | bool (b : Bool) : Json
  | num (n : Int) : Json
  | str (s : String) : Json
  | arr (xs : List Json) : Json
  | obj (fields : List (String × Json)) : Json

mutual

/-- Decidable equality for the nested inductive Json. -/
def Json.decEq : (a b : Json) → Decidable (a = b)
  | .null, .null => isTrue rfl
  | .bool x, .bool y =>
    if h : x = y then isTrue (by rw [h]) else isFalse (fun hc => h (by injection hc))
  | .num x, .num y =>
    if h : x = y then isTrue (by rw [h]) else isFalse (fun hc => h (by injection hc))
  | .str x, .str y =>
    if h : x = y then isTrue (by rw [h]) else isFalse (fun hc => h (by injection hc))
  | .arr xs, .arr ys =>
    match Json.decEqL xs ys with
    | isTrue h => isTrue (by rw [h])
    | isFalse h => isFalse (fun hc => h (by injection hc))
  | .obj fs, .obj gs =>
    match Json.decEqF fs gs with
    | isTrue h => isTrue (by rw [h])
    | isFalse h => isFalse (fun hc => h (by injection hc))
  | .null, .bool _ | .null, .num _ | .null, .str _ | .null, .arr _ | .null, .obj _
  | .bool _, .null | .bool _, .num _ | .bool _, .str _ | .bool _, .arr _ | .bool _, .obj _
  | .num _, .null | .num _, .bool _ | .num _, .str _ | .num _, .arr _ | .num _, .obj _
  | .str _, .null | .str _, .bool _ | .str _, .num _ | .str _, .arr _ | .str _, .obj _
  | .arr _, .null | .arr _, .bool _ | .arr _, .num _ | .arr _, .str _ | .arr _, .obj _
  | .obj _, .null | .obj _, .bool _ | .obj _, .num _ | .obj _, .str _ | .obj _, .arr _ =>
    isFalse (fun h => Json.noConfusion h)

/-- Decidable equality for lists of Json values. -/
def Json.decEqL : (xs ys : List Json) → Decidable (xs = ys)
  | [], [] => isTrue rfl
  | x :: xs, y :: ys =>
    match Json.decEq x y, Json.decEqL xs ys with
    | isTrue h1, isTrue h2 => isTrue (by rw [h1, h2])
    | isFalse h1, _ => isFalse (fun hc => h1 (by injection hc))
    | _, isFalse h2 => isFalse (fun hc => h2 (by injection hc))
  | [], _ :: _ => isFalse (fun h => List.noConfusion h)
  | _ :: _, [] => isFalse (fun h => List.noConfusion h)

/-- Decidable equality for lists of JSON object fields. -/
def Json.decEqF : (fs gs : List (String × Json)) → Decidable (fs = gs)
  | [], [] => isTrue rfl
  | (k1, v1) :: fs, (k2, v2) :: gs =>
    if hk : k1 = k2 then
      match Json.decEq v1 v2, Json.decEqF fs gs with
      | isTrue h1, isTrue h2 => isTrue (by rw [hk, h1, h2])
      | isFalse h1, _ =>
        isFalse (fun hc => h1 (by injection hc with hp _; injection hp))
      | _, isFalse h2 => isFalse (fun hc => h2 (by injection hc))
    else
      isFalse (fun hc => hk (by injection hc with hp _; injection hp))
  | [], _ :: _ => isFalse (fun h => List.noConfusion h)
  | _ :: _, [] => isFalse (fun h => List.noConfusion h)

end

instance : DecidableEq Json := Json.decEq

/-- jsonrpc_core::Id — correlation id of a call: null, a u64 number or a string. -/
inductive RpcId where
  | null : RpcId
  | num (n : Nat) : RpcId
  | str (s : String) : RpcId
deriving DecidableEq

/-- jsonrpc_core::Params — positional, named or absent parameters. -/
inductive RpcParams where
  | nothing : RpcParams
  | array (xs : List Json) : RpcParams
  | map (fields : List (String × Json)) : RpcParams
deriving DecidableEq

/-- jsonrpc_core::Version — the only version tag is "2.0". -/
inductive Version where
  | v2 : Version
deriving DecidableEq

/-- jsonrpc_core::MethodCall. -/
structure MethodCall where
  jsonrpc : Option Version
  method : String
  params : RpcParams
  id : RpcId
deriving DecidableEq

/-- jsonrpc_core::Notification (a call without an id). -/
structure Notification where
  jsonrpc : Option Version
  method : String
  params : RpcParams
deriving DecidableEq

/-- jsonrpc_core::Call — untagged union of the three request shapes. -/
inductive Call where
  | methodCall (c : MethodCall) : Call
  | notification (n : Notification) : Call
  | invalid (id : RpcId) : Call
deriving DecidableEq

/-- jsonrpc_core::Error. -/
structure RpcError where
  code : Int
  message : String
  data : Option Json
deriving DecidableEq

/-- jsonrpc_core::Success. -/
structure Success where
  jsonrpc : Option Version
  result : Json
  id : RpcId
deriving DecidableEq

/-- jsonrpc_core::Failure. -/
structure Failure where
  jsonrpc : Option Version
  error : RpcError
  id : RpcId
deriving DecidableEq

/-- jsonrpc_core::Output — one response frame. -/
inductive Output where
  | success (s : Success) : Output
  | failure (f : Failure) : Output
deriving DecidableEq

/-- jsonrpc_pubsub::SubscriptionId — a u64 number or a string. -/
inductive SubscriptionId where
  | num (n : Nat) : SubscriptionId
  | str (s : String) : SubscriptionId
deriving DecidableEq

/-- jsonrpc_pubsub::SubscriptionId::parse_value: strings parse as-is, numbers
only when they fit u64; anything else is rejected. -/
def SubscriptionId.parse_value : Json → Option SubscriptionId
  | .str s => some (.str s)
  | .num n => if 0 ≤ n ∧ n < 2 ^ 64 then some (.num n.toNat) else none
  | _ => none

/-! Association-list maps.  HashMap on the Rust side; insert replaces any
previous binding of the key. -/

/-- Lookup in an association list (HashMap::get). -/
def lookupA {α β : Type} [DecidableEq α] : List (α × β) → α → Option β
  | [], _ => none
  | (k, v) :: rest, key => if key = k then some v else lookupA rest key

/-- Remove a key from an association list (HashMap::remove, dropping the value). -/
def eraseA {α β : Type} [DecidableEq α] : List (α × β) → α → List (α × β)
  | [], _ => []
  | (k, v) :: rest, key => if key = k then eraseA rest key else (k, v) :: eraseA rest key

/-- Insert (HashMap::insert): replaces any previous binding of the key. -/
def insertA {α β : Type} [DecidableEq α] (l : List (α × β)) (key : α) (v : β) : List (α × β) :=
  (key, v) :: eraseA l key

/-- Each key is bound at most once. -/
def keysNodup {α β : Type} (l : List (α × β)) : Prop :=
  (l.map Prod.fst).Nodup

theorem lookupA_eraseA_self {α β : Type} [DecidableEq α] (l : List (α × β)) (k : α) :
    lookupA (eraseA l k) k = none := by
  induction l with
  | nil => rfl
  | cons hd tl ih =>
    obtain ⟨k2, v⟩ := hd
    by_cases h : k = k2
    · subst h
      simpa [eraseA] using ih
    · simp [eraseA, lookupA, h, ih]

theorem lookupA_insertA_self {α β : Type} [DecidableEq α] (l : List (α × β)) (k : α) (v : β) :
    lookupA (insertA l k v) k = some v := by
  simp [insertA, lookupA]

theorem mem_eraseA {α β : Type} [DecidableEq α] (l : List (α × β)) (k : α) (p : α × β)
    (h : p ∈ eraseA l k) : p ∈ l := by
  induction l with
  | nil => simp [eraseA] at h
  | cons hd tl ih =>
    obtain ⟨k2, v⟩ := hd
    by_cases hk : k = k2
    · simp only [eraseA, if_pos hk] at h
      exact List.mem_cons_of_mem _ (ih h)
    · simp only [eraseA, if_neg hk, List.mem_cons] at h
      rcases h with h | h
      · exact h ▸ List.mem_cons_self _ _
      · exact List.mem_cons_of_mem _ (ih h)

theorem keysNodup_eraseA {α β : Type} [DecidableEq α] (l : List (α × β)) (k : α)
    (h : keysNodup l) : keysNodup (eraseA l k) := by
  induction l with
  | nil => simpa [eraseA] using h
  | cons hd tl ih =>
    obtain ⟨k2, v⟩ := hd
    simp only [keysNodup, List.map_cons, List.nodup_cons] at h
    by_cases hk : k = k2
    · simpa [eraseA, if_pos hk] using ih h.2
    · simp only [eraseA, if_neg hk, keysNodup, List.map_cons, List.nodup_cons]
      refine ⟨fun hmem => h.1 ?_, ih h.2⟩
      rcases List.mem_map.1 hmem with ⟨p, hp, hfst⟩
      exact List.mem_map.2 ⟨p, mem_eraseA tl k p hp, hfst⟩

theorem not_mem_keys_eraseA {α β : Type} [DecidableEq α] (l : List (α × β)) (k : α) :
    k ∉ (eraseA l k).map Prod.fst := by
  induction l with
  | nil => simp [eraseA]
  | cons hd tl ih =>
    obtain ⟨k2, v⟩ := hd
    by_cases hk : k = k2
    · simpa [eraseA, if_pos hk] using ih
    · simpa [eraseA, if_neg hk, List.mem_cons, hk] using ih

theorem keysNodup_insertA {α β : Type} [DecidableEq α] (l : List (α × β)) (k : α) (v : β)
    (h : keysNodup l) : keysNodup (insertA l k v) := by
  simp only [insertA, keysNodup, List.map_cons, List.nodup_cons]
  exact ⟨not_mem_keys_eraseA l k, keysNodup_eraseA l k h⟩

/-! Model of src/plugins/upstream: the Shared correlation table.

One-shot channels are identified by the Nat at which they were allocated
(the model state carries an allocation counter); the sender and receiver
half of a channel share its identifier.  Sessions (jsonrpc_pubsub::Session)
are identified by Nat; the registry of live sessions is part of the state,
and a weak reference upgrade succeeds exactly when the session id is in the
registry.  An unsubscribe closure (shared.rs type Unsubscribe) is represented
by the data the only closure ever registered captures: the Subscription
descriptor it closes over (ws-upstream lib.rs, WebSocket::subscribe). -/

/-- upstream::Subscription — a Pub-Sub method descriptor. -/
structure Subscription where
  subscribe : String
  unsubscribe : String
  name : String
deriving DecidableEq

/-- shared.rs PendingKind. -/
inductive PendingKind where
  | regular : PendingKind
  | subscribe (session : Nat) (unsub : Subscription) : PendingKind
deriving DecidableEq

/-- One live session: whether its sink accepts messages, the messages pushed
into the sink so far, and the registered on-drop unsubscribe thunks
(each thunk is the descriptor it captured plus the subscription id it was
bound to by Shared::add_subscription). -/
structure SessionData where
  sinkOk : Bool
  sink : List Json
  hooks : List (Subscription × SubscriptionId)
deriving DecidableEq

/-- shared.rs struct Shared (plus the allocation counter for one-shot
channels and the registry of live sessions, see above). -/
structure Shared where
  nextChan : Nat
  pending : List (RpcId × (Nat × PendingKind))
  subscriptions : List (SubscriptionId × Nat)
  sessions : List (Nat × SessionData)
deriving DecidableEq

/-- Shared::default(). -/
def sharedInit : Shared :=
  { nextChan := 0, pending := [], subscriptions := [], sessions := [] }

/-- Shared::add_pending: with an absent id return nothing and leave the state
alone; otherwise allocate a one-shot channel, store the sender under the id
and hand back the receiver. -/
def Shared.add_pending (st : Shared) (id : Option RpcId) (kind : PendingKind) :
    Shared × Option Nat :=
  match id with
  | none => (st, none)
  | some id =>
    ({ st with
        nextChan := st.nextChan + 1,
        pending := insertA st.pending id (st.nextChan, kind) },
      some st.nextChan)

/-- Shared::remove_pending: atomic take of the entry under the id. -/
def Shared.remove_pending (st : Shared) (id : RpcId) :
    Shared × Option (Nat × PendingKind) :=
  ({ st with pending := eraseA st.pending id }, lookupA st.pending id)

/-- Shared::add_subscription: registers the unsubscribe thunk on the
session's drop hooks and records the subscription under a weak reference to
the session.  (In shared.rs the session is an Arc handed over by the pending
entry; registering the hook mutates the session object.) -/
def Shared.add_subscription (st : Shared) (id : SubscriptionId) (session : Nat)
    (unsub : Subscription) : Shared :=
  let sessions :=
    match lookupA st.sessions session with
    | some sd => insertA st.sessions session { sd with hooks := sd.hooks ++ [(unsub, id)] }
    | none => st.sessions
  { st with
      sessions := sessions,
      subscriptions := insertA st.subscriptions id session }

/-- Shared::remove_subscription (idempotent delete). -/
def Shared.remove_subscription (st : Shared) (id : SubscriptionId) : Shared :=
  { st with subscriptions := eraseA st.subscriptions id }

/-- Shared::notify_subscription: looks the session up, upgrades the weak
reference, and pushes the payload into the session sink.  Result: none when
the subscription is unknown or the session is gone (both are logged by the
caller), otherwise the push outcome. -/
def Shared.notify_subscription (st : Shared) (id : SubscriptionId) (msg : Json) :
    Shared × Option Bool :=
  match lookupA st.subscriptions id with
  | none => (st, none)
  | some session =>
    match lookupA st.sessions session with
    | none => (st, none)
    | some sd =>
      if sd.sinkOk then
        ({ st with sessions := insertA st.sessions session { sd with sink := sd.sink ++ [msg] } },
          some true)
      else
        (st, some false)

/-! Claim C2 machinery: arbitrary interleavings of add_pending / remove_pending. -/

/-- One pending-table operation. -/
inductive PendingOp where
  | add (id : Option RpcId) (kind : PendingKind) : PendingOp
  | remove (id : RpcId) : PendingOp

/-- Run a sequence of pending-table operations. -/
def Shared.runPendingOps (st : Shared) : List PendingOp → Shared
  | [] => st
  | .add id kind :: rest => ((st.add_pending id kind).1).runPendingOps rest
  | .remove id :: rest => ((st.remove_pending id).1).runPendingOps rest

/-- Invariant of the pending table: keys are unique and every stored channel
was allocated before the current counter value. -/
def Shared.pendingInv (st : Shared) : Prop :=
  keysNodup st.pending ∧ ∀ p ∈ st.pending, p.2.1 < st.nextChan

theorem pendingInv_add (st : Shared) (id : Option RpcId) (kind : PendingKind)
    (h : st.pendingInv) : ((st.add_pending id kind).1).pendingInv := by
  obtain ⟨hnodup, hbound⟩ := h
  match id with
  | none => exact ⟨hnodup, hbound⟩
  | some id =>
    refine ⟨keysNodup_insertA _ _ _ hnodup, ?_⟩
    intro p hp
    simp only [Shared.add_pending, insertA, List.mem_cons] at hp
    rcases hp with hp | hp
    · rw [hp]
      exact Nat.lt_succ_self _
    · exact Nat.lt_succ_of_lt (hbound p (mem_eraseA _ _ _ hp))

theorem pendingInv_remove (st : Shared) (id : RpcId)
    (h : st.pendingInv) : ((st.remove_pending id).1).pendingInv := by
  obtain ⟨hnodup, hbound⟩ := h
  exact ⟨keysNodup_eraseA _ _ hnodup, fun p hp => hbound p (mem_eraseA _ _ _ hp)⟩

theorem pendingInv_runPendingOps (ops : List PendingOp) (st : Shared)
    (h : st.pendingInv) : (st.runPendingOps ops).pendingInv := by
  induction ops generalizing st with
  | nil => exact h
  | cons op rest ih =>
    cases op with
    | add id kind => exact ih _ (pendingInv_add st id kind h)
    | remove id => exact ih _ (pendingInv_remove st id h)

theorem pendingInv_init : sharedInit.pendingInv := by
  constructor
  · simp [sharedInit, keysNodup]
  · intro p hp
    simp [sharedInit] at hp

/-- Claim C2: over every interleaving of add_pending and remove_pending calls
starting from the empty table, (1) each request id maps to at most one
pending entry; (2) add_pending with an absent id returns nothing and leaves
the pending map unchanged; (3) add_pending with a present id allocates a
fresh one-shot channel — distinct from every channel still stored — and
stores its sender under that id; (4) remove_pending is an atomic take: it
returns the entry under the id, deletes it, and a second remove_pending of
the same id returns nothing. -/
theorem C2_pending_invariant (ops : List PendingOp) (id : RpcId) (kind : PendingKind) :
    ((Shared.runPendingOps sharedInit ops).pending.map Prod.fst).Nodup ∧
    ((Shared.runPendingOps sharedInit ops).add_pending none kind
        = (Shared.runPendingOps sharedInit ops, none)) ∧
    (lookupA ((Shared.runPendingOps sharedInit ops).add_pending (some id) kind).1.pending id
        = some ((Shared.runPendingOps sharedInit ops).nextChan, kind)) ∧
    (∀ p ∈ (Shared.runPendingOps sharedInit ops).pending,
        p.2.1 ≠ (Shared.runPendingOps sharedInit ops).nextChan) ∧
    ((Shared.runPendingOps sharedInit ops).remove_pending id).2
        = lookupA (Shared.runPendingOps sharedInit ops).pending id ∧
    (((Shared.runPendingOps sharedInit ops).remove_pending id).1.remove_pending id).2 = none := by
  have hinv := pendingInv_runPendingOps ops sharedInit pendingInv_init
  set st := Shared.runPendingOps sharedInit ops with hst
  obtain ⟨hnodup, hbound⟩ := hinv
  refine ⟨hnodup, rfl, ?_, ?_, rfl, ?_⟩
  · simp [Shared.add_pending, lookupA_insertA_self]
  · intro p hp
    exact Nat.ne_of_lt (hbound p hp)
  · simp [Shared.remove_pending, lookupA_eraseA_self]

/-! Model of the jsonrpc-core serde derivations consumed by
src/plugins/upstream/src/helpers.rs.  MethodCall, Notification and Success
reject unknown and duplicate fields; Call is the untagged union tried in the
order MethodCall, Notification, Invalid; Invalid accepts any object and
extracts the id field, defaulting to null when absent.  Frames are single
JSON-RPC envelopes, i.e. JSON objects. -/

/-- jsonrpc field: only the exact string "2.0" parses. -/
def parseVersion : Json → Option Version
  | .str s => if s = "2.0" then some .v2 else none
  | _ => none

/-- Id: null, a u64 number, or a string. -/
def parseRpcId : Json → Option RpcId
  | .null => some .null
  | .num n => if 0 ≤ n ∧ n < 2 ^ 64 then some (.num n.toNat) else none
  | .str s => some (.str s)
  | _ => none

/-- Params: an array, an object, or null (no parameters). -/
def parseParams : Json → Option RpcParams
  | .null => some .nothing
  | .arr xs => some (.array xs)
  | .obj fs => some (.map fs)
  | _ => none

/-- deny_unknown_fields: every key is among the allowed ones and none repeats. -/
def structKeysOk (fs : List (String × Json)) (allowed : List String) : Prop :=
  (fs.map Prod.fst).Nodup ∧ ∀ k ∈ fs.map Prod.fst, k ∈ allowed

instance (fs : List (String × Json)) (allowed : List String) :
    Decidable (structKeysOk fs allowed) := by
  unfold structKeysOk
  infer_instance

/-- Parse an optional struct field, with a default when absent. -/
def parseOptField {A : Type} (fs : List (String × Json)) (key : String)
    (p : Json → Option A) (dflt : A) : Option A :=
  match lookupA fs key with
  | none => some dflt
  | some v => p v

/-- serde model of jsonrpc_core::Notification. -/
def parseNotificationJson : Json → Option Notification
  | .obj fs =>
    if structKeysOk fs ["jsonrpc", "method", "params"] then
      match lookupA fs "method" with
      | some (.str m) =>
        (parseOptField fs "jsonrpc" (fun v => (parseVersion v).map some) none).bind fun ver =>
          (parseOptField fs "params" parseParams .nothing).map fun ps =>
            { jsonrpc := ver, method := m, params := ps }
      | _ => none
    else none
  | _ => none

/-- serde model of jsonrpc_core::MethodCall (id is a required field). -/
def parseMethodCallJson : Json → Option MethodCall
  | .obj fs =>
    if structKeysOk fs ["jsonrpc", "method", "params", "id"] then
      match lookupA fs "method", lookupA fs "id" with
      | some (.str m), some idv =>
        (parseRpcId idv).bind fun id =>
          (parseOptField fs "jsonrpc" (fun v => (parseVersion v).map some) none).bind fun ver =>
            (parseOptField fs "params" parseParams .nothing).map fun ps =>
              { jsonrpc := ver, method := m, params := ps, id := id }
      | _, _ => none
    else none
  | _ => none

/-- serde model of the Call::Invalid variant: any object, id defaulted to null. -/
def parseInvalidJson : Json → Option RpcId
  | .obj fs =>
    match lookupA fs "id" with
    | none => some .null
    | some v => parseRpcId v
  | _ => none

/-- serde model of jsonrpc_core::Call (untagged; variants tried in order). -/
def parseCallJson (j : Json) : Option Call :=
  match parseMethodCallJson j with
  | some c => some (.methodCall c)
  | none =>
    match parseNotificationJson j with
    | some n => some (.notification n)
    | none => (parseInvalidJson j).map .invalid

/-- serde model of jsonrpc_core::Success (result and id required). -/
def parseSuccessJson : Json → Option Success
  | .obj fs =>
    if structKeysOk fs ["jsonrpc", "result", "id"] then
      match lookupA fs "result", lookupA fs "id" with
      | some r, some idv =>
        (parseRpcId idv).bind fun id =>
          (parseOptField fs "jsonrpc" (fun v => (parseVersion v).map some) none).map fun ver =>
            { jsonrpc := ver, result := r, id := id }
      | _, _ => none
    else none
  | _ => none

/-! src/plugins/upstream/src/helpers.rs -/

/-- helpers::peek_subscription_id — parse the frame as a Notification and
extract the "subscription" key of the params map as a subscription id. -/
def peek_subscription_id (t : Json) : Option SubscriptionId :=
  (parseNotificationJson t).bind fun n =>
    match n.params with
    | .map fields => (lookupA fields "subscription").bind SubscriptionId.parse_value
    | _ => none

/-- helpers::peek_result — parse the frame as a Success and take its result. -/
def peek_result (t : Json) : Option Json :=
  (parseSuccessJson t).map Success.result

/-- helpers::get_id. -/
def get_id : Call → Option RpcId
  | .methodCall c => some c.id
  | .notification _ => none
  | .invalid id => some id

/-- helpers::peek_id — parse the frame as a Call and take its id. -/
def peek_id (t : Json) : Option RpcId :=
  (parseCallJson t).bind get_id

/-- helpers::get_method_name. -/
def get_method_name : Call → Option String
  | .methodCall c => some c.method
  | .notification n => some n.method
  | .invalid _ => none

/-- helpers::get_unsubscribe_id — first array parameter parsed as a
subscription id. -/
def get_unsubscribe_id : Call → Option SubscriptionId
  | .methodCall c =>
    (match c.params with
      | .array (v :: _) => SubscriptionId.parse_value v
      | _ => none)
  | .notification n =>
    (match n.params with
      | .array (v :: _) => SubscriptionId.parse_value v
      | _ => none)
  | .invalid _ => none

/-! src/plugins/ws-upstream/src/lib.rs — WebSocketHandler::process_message,
OwnedMessage::Text branch.  The one-shot sink send is recorded in the effect
(the receiver side lives with the caller of Transport::send); state changes
happen on the Shared table. -/

/-- Observable outcome of processing one upstream text frame. -/
inductive FrameEffect where
  | notified (sid : SubscriptionId) (outcome : Option Bool) : FrameEffect
  | responded (id : RpcId) (chan : Nat) (registered : Option SubscriptionId) : FrameEffect
  | droppedUnknownId (id : RpcId) : FrameEffect
  | droppedUnparsed : FrameEffect
deriving DecidableEq

/-- WebSocketHandler::process_message on a text frame: first try the
subscription-notification path, then the pending-response path (registering a
subscription before forwarding when the pending kind is Subscribe and the
result parses), otherwise log and drop. -/
def process_message (st : Shared) (t : Json) : Shared × FrameEffect :=
  match peek_subscription_id t with
  | some sid =>
    ((st.notify_subscription sid t).1, .notified sid (st.notify_subscription sid t).2)
  | none =>
    match peek_id t with
    | some id =>
      match (st.remove_pending id).2 with
      | some (chan, kind) =>
        (match kind with
          | .regular => ((st.remove_pending id).1, .responded id chan none)
          | .subscribe session unsub =>
            (match (peek_result t).bind SubscriptionId.parse_value with
              | some sidNew =>
                (((st.remove_pending id).1).add_subscription sidNew session unsub,
                  .responded id chan (some sidNew))
              | none => ((st.remove_pending id).1, .responded id chan none)))
      | none => ((st.remove_pending id).1, .droppedUnknownId id)
    | none => (st, .droppedUnparsed)

theorem eraseA_of_lookupA_none {α β : Type} [DecidableEq α] (l : List (α × β)) (k : α)
    (h : lookupA l k = none) : eraseA l k = l := by
  induction l with
  | nil => rfl
  | cons hd tl ih =>
    obtain ⟨k2, v⟩ := hd
    by_cases hk : k = k2
    · simp [lookupA, hk] at h
    · simp only [lookupA, if_neg hk] at h
      simp [eraseA, if_neg hk, ih h]

/-- Claim C1: discrimination order of the upstream reader.  (1) A frame that
parses as a notification carrying a parseable subscription id goes through
notify_subscription; the pending and subscription tables are untouched, so it
is never matched against pending.  (2) Otherwise, a frame whose id is present
and found in pending removes that entry; for kind Subscribe with a parseable
result the subscription is registered via add_subscription in the state in
which the raw frame is forwarded to the one-shot sink, for kind Regular the
frame is forwarded with no further state change.  (3) Otherwise the frame is
dropped with no state change. -/
theorem C1_reader_discrimination (st : Shared) (t : Json) :
    (∀ sid, peek_subscription_id t = some sid →
      process_message st t
          = ((st.notify_subscription sid t).1, .notified sid (st.notify_subscription sid t).2) ∧
        (process_message st t).1.pending = st.pending ∧
        (process_message st t).1.subscriptions = st.subscriptions) ∧
    (peek_subscription_id t = none →
      ∀ id chan kind, peek_id t = some id → lookupA st.pending id = some (chan, kind) →
        (process_message st t).1.pending = eraseA st.pending id ∧
        (kind = .regular →
          process_message st t
            = ({ st with pending := eraseA st.pending id }, .responded id chan none)) ∧
        (∀ session unsub, kind = .subscribe session unsub →
          (∀ sidNew, (peek_result t).bind SubscriptionId.parse_value = some sidNew →
            (process_message st t).2 = .responded id chan (some sidNew) ∧
            (process_message st t).1.subscriptions = insertA st.subscriptions sidNew session ∧
            (∀ sd, lookupA st.sessions session = some sd →
              lookupA (process_message st t).1.sessions session
                = some { sd with hooks := sd.hooks ++ [(unsub, sidNew)] })) ∧
          ((peek_result t).bind SubscriptionId.parse_value = none →
            process_message st t
              = ({ st with pending := eraseA st.pending id }, .responded id chan none)))) ∧
    (peek_subscription_id t = none →
      (∀ id, peek_id t = some id → lookupA st.pending id = none →
        process_message st t = (st, .droppedUnknownId id)) ∧
      (peek_id t = none → process_message st t = (st, .droppedUnparsed))) := by
  refine ⟨?_, ?_, ?_⟩
  · intro sid hsub
    simp [process_message, hsub, Shared.notify_subscription]
    constructor
    · cases hl : lookupA st.subscriptions sid with
      | none => simp [hl]
      | some session =>
        cases hl2 : lookupA st.sessions session with
        | none => simp [hl, hl2]
        | some sd => by_cases hok : sd.sinkOk <;> simp [hl, hl2, hok]
    · cases hl : lookupA st.subscriptions sid with
      | none => simp [hl]
      | some session =>
        cases hl2 : lookupA st.sessions session with
        | none => simp [hl, hl2]
        | some sd => by_cases hok : sd.sinkOk <;> simp [hl, hl2, hok]
  · intro hsub id chan kind hid hlook
    have hrm : (st.remove_pending id).2 = some (chan, kind) := hlook
    refine ⟨?_, ?_, ?_⟩
    · cases kind with
      | regular => simp [process_message, hsub, hid, hrm, hlook, Shared.remove_pending]
      | subscribe session unsub =>
        cases hres : (peek_result t).bind SubscriptionId.parse_value with
        | none => simp [process_message, hsub, hid, hrm, hlook, hres, Shared.remove_pending]
        | some sidNew =>
          simp [process_message, hsub, hid, hrm, hlook, hres, Shared.remove_pending,
            Shared.add_subscription]
    · rintro rfl
      simp [process_message, hsub, hid, hrm, hlook, Shared.remove_pending]
    · rintro session unsub rfl
      constructor
      · intro sidNew hres
        refine ⟨?_, ?_, ?_⟩
        · simp [process_message, hsub, hid, hrm, hlook, hres]
        · simp [process_message, hsub, hid, hrm, hlook, hres, Shared.remove_pending,
            Shared.add_subscription]
        · intro sd hsd
          simp [process_message, hsub, hid, hrm, hlook, hres, Shared.remove_pending,
            Shared.add_subscription, hsd, lookupA_insertA_self]
      · intro hres
        simp [process_message, hsub, hid, hrm, hlook, hres, Shared.remove_pending]
  · intro hsub
    constructor
    · intro id hid hlook
      have hrm : (st.remove_pending id).2 = none := hlook
      have herase : eraseA st.pending id = st.pending := eraseA_of_lookupA_none _ _ hlook
      simp [process_message, hsub, hid, hrm, hlook, Shared.remove_pending, herase]
    · intro hid
      simp [process_message, hsub, hid]

/-! src/plugins/ws-upstream/src/lib.rs — the WebSocket transport handle.
The writer channel is modelled by the list of calls enqueued on it (frames
sent upstream, oldest first).  The auto-unsubscribe closure built by
WebSocket::subscribe captures the handle and the Subscription descriptor;
invoking it builds the unsubscribe MethodCall and runs
WebSocket::unsubscribe. -/

/-- A WebSocket transport handle state: the shared table plus the frames
enqueued on the writer channel. -/
structure WsState where
  shared : Shared
  written : List Call
deriving DecidableEq

/-- SubscriptionId → serde_json::Value (the Into conversion used for the
unsubscribe call parameter). -/
def subIdToJson : SubscriptionId → Json
  | .num n => .num n
  | .str s => .str s

/-- WebSocket::send — allocate a Regular pending entry under the call id and
enqueue the serialised call on the writer channel. -/
def WebSocket.send (st : WsState) (call : Call) : WsState :=
  let sh := (st.shared.add_pending (get_id call) .regular).1
  { shared := sh, written := st.written ++ [call] }

/-- The unsubscribe call constructed inside the closure registered by
WebSocket::subscribe: method is the descriptor's unsubscribe name, the id is
the literal Id::Num(1), and the params are the single received subscription
id. -/
def mkUnsubscribeCall (subscription : Subscription) (subs_id : SubscriptionId) : Call :=
  .methodCall
    { jsonrpc := some .v2,
      id := .num 1,
      method := subscription.unsubscribe,
      params := .array [subIdToJson subs_id] }

/-- WebSocket::unsubscribe — drop the local subscription entry when the call
carries a parseable subscription id as its first parameter, then send the
call as a regular RPC. -/
def WebSocket.unsubscribe (st : WsState) (call : Call) : WsState :=
  let sh :=
    match get_unsubscribe_id call with
    | some sid => st.shared.remove_subscription sid
    | none => st.shared
  WebSocket.send { st with shared := sh } call

/-- WebSocket::subscribe — fails fast without a session; otherwise allocates
a Subscribe pending entry (carrying the session and the unsubscribe thunk
data) and enqueues the call.  The Bool records whether the call was sent. -/
def WebSocket.subscribe (st : WsState) (call : Call) (session : Option Nat)
    (subscription : Subscription) : WsState × Bool :=
  match session with
  | none => (st, false)
  | some sess =>
    let sh := (st.shared.add_pending (get_id call) (.subscribe sess subscription)).1
    ({ shared := sh, written := st.written ++ [call] }, true)

/-- Invoke one registered on-drop thunk: build the unsubscribe call for the
bound subscription id and run WebSocket::unsubscribe (shared.rs registers
the thunk via session.on_drop in add_subscription). -/
def runUnsubscribeHook (st : WsState) (hook : Subscription × SubscriptionId) : WsState :=
  WebSocket.unsubscribe st (mkUnsubscribeCall hook.1 hook.2)

/-- Dropping a client session: the session leaves the live registry and each
of its on-drop hooks fires exactly once, in registration order
(jsonrpc_pubsub::Session Drop semantics). -/
def dropSession (st : WsState) (sess : Nat) : WsState :=
  match lookupA st.shared.sessions sess with
  | none => st
  | some sd =>
    let st2 : WsState :=
      { st with shared := { st.shared with sessions := eraseA st.shared.sessions sess } }
    sd.hooks.foldl runUnsubscribeHook st2

theorem parse_value_subIdToJson (j : Json) (sid : SubscriptionId)
    (h : SubscriptionId.parse_value j = some sid) :
    SubscriptionId.parse_value (subIdToJson sid) = some sid := by
  cases j with
  | num n =>
    simp only [SubscriptionId.parse_value] at h
    by_cases hb : 0 ≤ n ∧ n < 2 ^ 64
    · rw [if_pos hb] at h
      cases h
      obtain ⟨h0, h64⟩ := hb
      have hn : (n.toNat : Int) = n := Int.toNat_of_nonneg h0
      simp [subIdToJson, SubscriptionId.parse_value, hn, h0]
      omega
    · rw [if_neg hb] at h
      cases h
  | str s =>
    cases h
    simp [subIdToJson, SubscriptionId.parse_value]
  | null => cases h
  | bool b => cases h
  | arr xs => cases h
  | obj fs => cases h

/-- Composition of the subscribe-then-close scenario: a subscribe call is
sent for a session, one upstream frame is processed (the subscribe
response), and then the originating session is dropped. -/
def subscribeScenario (w0 : WsState) (c : MethodCall) (sess : Nat)
    (subscription : Subscription) (frame : Json) : WsState :=
  let w1 := (WebSocket.subscribe w0 (.methodCall c) (some sess) subscription).1
  let w2 : WsState := { shared := (process_message w1.shared frame).1, written := w1.written }
  dropSession w2 sess

/-- Claim C3, counterexample to "its id is a fresh id": the unsubscribe call
constructed by the on-drop thunk always carries the literal id Num 1 — here
it collides with the id of the subscribe call of the very scenario it
belongs to, and two distinct drops produce the same id. -/
theorem C3_counterexample :
    (subscribeScenario
        { shared := { sharedInit with sessions := [(0, ⟨true, [], []⟩)] }, written := [] }
        { jsonrpc := some .v2, method := "eth_subscribe",
          params := .array [.str "newHeads"], id := .num 1 }
        0
        ⟨"eth_subscribe", "eth_unsubscribe", "eth_subscription"⟩
        (.obj [("jsonrpc", .str "2.0"), ("id", .num 1), ("result", .str "0xabc")])).written
      = [.methodCall
            { jsonrpc := some .v2, method := "eth_subscribe",
              params := .array [.str "newHeads"], id := .num 1 },
         .methodCall
            { jsonrpc := some .v2, id := .num 1, method := "eth_unsubscribe",
              params := .array [.str "0xabc"] }] ∧
    get_id (mkUnsubscribeCall ⟨"s", "u", "n"⟩ (.str "0xabc"))
      = get_id (mkUnsubscribeCall ⟨"s", "u", "n"⟩ (.str "0xdef")) := by
  constructor
  · decide
  · decide

/-- Claim C3 as amended: for every subscribe call that succeeds (the
response frame correlates by id and its result parses as a subscription id)
followed by the drop of the originating session, exactly one unsubscribe
MethodCall is sent upstream; its method is the configured unsubscribe
method name, its id is the constant Id::Num(1) (not a fresh id), and its
params are the array holding exactly the subscription id upstream returned. -/
theorem C3_auto_unsubscribe (w0 : WsState) (c : MethodCall) (sess : Nat)
    (subscription : Subscription) (frame : Json) (sid : SubscriptionId) (sd : SessionData)
    (hsess : lookupA w0.shared.sessions sess = some sd)
    (hhooks : sd.hooks = [])
    (hnotif : peek_subscription_id frame = none)
    (hframeid : peek_id frame = some c.id)
    (hres : (peek_result frame).bind SubscriptionId.parse_value = some sid) :
    (subscribeScenario w0 c sess subscription frame).written
      = w0.written ++ [.methodCall c, mkUnsubscribeCall subscription sid] ∧
    mkUnsubscribeCall subscription sid
      = .methodCall
          { jsonrpc := some .v2, id := .num 1,
            method := subscription.unsubscribe,
            params := .array [subIdToJson sid] } := by
  obtain ⟨j, hj, hpv⟩ : ∃ j, peek_result frame = some j ∧ SubscriptionId.parse_value j = some sid := by
    cases hpr : peek_result frame with
    | none => simp [hpr] at hres
    | some j =>
      refine ⟨j, rfl, ?_⟩
      simpa [hpr] using hres
  have hserde := parse_value_subIdToJson j sid hpv
  have hunsub : get_unsubscribe_id (mkUnsubscribeCall subscription sid) = some sid := by
    simp [mkUnsubscribeCall, get_unsubscribe_id, hserde]
  refine ⟨?_, rfl⟩
  simp [subscribeScenario, WebSocket.subscribe, Shared.add_pending, get_id,
    process_message, hnotif, hframeid, hj, hpv, Shared.remove_pending,
    lookupA_insertA_self, Shared.add_subscription, hsess, hhooks,
    dropSession, runUnsubscribeHook, WebSocket.unsubscribe, hunsub,
    Shared.remove_subscription, WebSocket.send, mkUnsubscribeCall]

/-! src/plugins/simple-cache/src/lib.rs.  Instants are abstract time points
(Nat); Instant::now() is passed in explicitly at the moment on_call runs.
The 64-bit digest Method::hash (twox_hash XxHash over the method name
followed by the canonical JSON of the params — an external hasher crate) is
a parameter of the model. -/

/-- simple-cache CacheEviction — the only variant is time-based. -/
inductive CacheEviction where
  | time (d : Nat) : CacheEviction
deriving DecidableEq

/-- simple-cache Method (a cacheable method). -/
structure CacheMethod where
  name : String
  eviction : CacheEviction
deriving DecidableEq

/-- simple-cache MethodMeta. -/
inductive MethodMeta where
  | deadline (t : Nat) : MethodMeta
deriving DecidableEq

/-- Method::meta — a fresh deadline now + d for Time(d). -/
def CacheMethod.meta (m : CacheMethod) (now : Nat) : MethodMeta :=
  match m.eviction with
  | .time d => .deadline (now + d)

/-- Method::is_fresh — the cached entry is usable while now < deadline. -/
def MethodMeta.is_fresh (meta : MethodMeta) (now : Nat) : Bool :=
  match meta with
  | .deadline dl => now < dl

/-- The caching middleware configuration: the enabled flag and the map from
method name to cacheable-method descriptor. -/
structure CacheMiddleware where
  enabled : Bool
  cacheable : List (String × CacheMethod)
deriving DecidableEq

/-- The cache: digest → (cached response, metadata). -/
structure CacheState where
  cached : List (Nat × (Option Output × MethodMeta))
deriving DecidableEq

/-- The action variant computed by Middleware::on_call. -/
inductive CacheAction where
  | next : CacheAction
  | nextAndCache (hash : Nat) (meta : MethodMeta) : CacheAction
  | ret (result : Option Output) : CacheAction
deriving DecidableEq

/-- Middleware::on_call decision (simple-cache): disabled or non-cacheable
or non-MethodCall chains to next; a fresh hit returns the cached response;
otherwise chain and cache under the digest.  H is the Method::hash digest
function. -/
def cache_on_call (mw : CacheMiddleware) (H : String → RpcParams → Nat) (now : Nat)
    (st : CacheState) (call : Call) : CacheAction :=
  if !mw.enabled then .next
  else
    match call with
    | .methodCall c =>
      match lookupA mw.cacheable c.method with
      | some m =>
        match lookupA st.cached (H c.method c.params) with
        | some (result, meta) =>
          if meta.is_fresh now then .ret result
          else .nextAndCache (H c.method c.params) (m.meta now)
        | none => .nextAndCache (H c.method c.params) (m.meta now)
      | none => .next
    | _ => .next

/-- The closure installed for NextAndCache: when next resolves, store the
response (whatever it is) together with the metadata under the digest. -/
def cache_install (st : CacheState) (hash : Nat) (meta : MethodMeta)
    (result : Option Output) : CacheState :=
  { cached := insertA st.cached hash (result, meta) }

/-- Claim C4: with caching enabled and a MethodCall to a cacheable method
with eviction Time(d): a cache entry under the digest that is fresh
(now strictly before its deadline) is returned immediately without chaining;
a missing or stale entry chains to next and, on resolution, installs the
response under the digest with deadline now + d; calls to non-cacheable
methods and non-MethodCall inputs always chain to next and are never
cached (the decision is Next, which installs nothing). -/
theorem C4_cache_decision (mw : CacheMiddleware) (H : String → RpcParams → Nat)
    (now : Nat) (st : CacheState) (c : MethodCall) (m : CacheMethod) (d : Nat) :
    (mw.enabled = true → lookupA mw.cacheable c.method = some m → m.eviction = .time d →
      (∀ result dl, lookupA st.cached (H c.method c.params) = some (result, .deadline dl) →
        (now < dl → cache_on_call mw H now st (.methodCall c) = .ret result) ∧
        (¬ now < dl →
          cache_on_call mw H now st (.methodCall c)
            = .nextAndCache (H c.method c.params) (.deadline (now + d)))) ∧
      (lookupA st.cached (H c.method c.params) = none →
        cache_on_call mw H now st (.methodCall c)
          = .nextAndCache (H c.method c.params) (.deadline (now + d))) ∧
      (∀ result,
        lookupA (cache_install st (H c.method c.params) (.deadline (now + d)) result).cached
            (H c.method c.params)
          = some (result, .deadline (now + d)))) ∧
    (lookupA mw.cacheable c.method = none →
      cache_on_call mw H now st (.methodCall c) = .next) ∧
    (∀ n, cache_on_call mw H now st (.notification n) = .next) ∧
    (∀ id, cache_on_call mw H now st (.invalid id) = .next) := by
  refine ⟨?_, ?_, ?_, ?_⟩
  · intro hen hm hev
    refine ⟨?_, ?_, ?_⟩
    · intro result dl hlook
      constructor
      · intro hfresh
        simp [cache_on_call, hen, hm, hlook, MethodMeta.is_fresh, hfresh]
      · intro hstale
        simp [cache_on_call, hen, hm, hlook, MethodMeta.is_fresh, hstale,
          CacheMethod.meta, hev]
    · intro hlook
      simp [cache_on_call, hen, hm, hlook, CacheMethod.meta, hev]
    · intro result
      simp [cache_install, lookupA_insertA_self]
  · intro hm
    cases hen : mw.enabled <;> simp [cache_on_call, hen, hm]
  · intro n
    cases hen : mw.enabled <;> simp [cache_on_call, hen]
  · intro id
    cases hen : mw.enabled <;> simp [cache_on_call, hen]

/-- Claim C10: the cache does not distinguish outcomes.  After a miss, the
middleware chains to next and installs whatever next resolved to — Success,
Failure or no output at all — under the digest; every identical call that
arrives while the entry is fresh gets exactly that stored value back and is
not chained. -/
theorem C10_cache_any_outcome (mw : CacheMiddleware) (H : String → RpcParams → Nat)
    (now now2 : Nat) (st : CacheState) (c : MethodCall) (m : CacheMethod) (d : Nat)
    (hen : mw.enabled = true)
    (hm : lookupA mw.cacheable c.method = some m)
    (hev : m.eviction = .time d)
    (hmiss : lookupA st.cached (H c.method c.params) = none)
    (result : Option Output)
    (hfresh : now2 < now + d) :
    cache_on_call mw H now st (.methodCall c)
      = .nextAndCache (H c.method c.params) (.deadline (now + d)) ∧
    cache_on_call mw H now2
        (cache_install st (H c.method c.params) (.deadline (now + d)) result)
        (.methodCall c)
      = .ret result := by
  constructor
  · simp [cache_on_call, hen, hm, hmiss, CacheMethod.meta, hev]
  · simp [cache_on_call, hen, hm, cache_install, lookupA_insertA_self,
      MethodMeta.is_fresh, hfresh]

/-! src/plugins/permissioning/src/lib.rs -/

/-- permissioning Access. -/
inductive Access where
  | allow : Access
  | deny : Access
deriving DecidableEq

/-- permissioning Method (per-method policy override). -/
structure PermMethod where
  name : String
  policy : Access
deriving DecidableEq

/-- The permissioning middleware: base policy plus per-method overrides. -/
structure PermMiddleware where
  base : Access
  permissioned : List (String × PermMethod)
deriving DecidableEq

/-- permissioning get_call_details — jsonrpc version and optional id. -/
def get_call_details : Call → Option Version × Option RpcId
  | .methodCall c => (c.jsonrpc, some c.id)
  | .notification n => (n.jsonrpc, none)
  | .invalid id => (none, some id)

/-- Result of permissioning Middleware::on_call: either chain the call to
next unchanged, or short-circuit with the given output (none = no output). -/
inductive PermResult where
  | next : PermResult
  | reject (out : Option Output) : PermResult
deriving DecidableEq

/-- The rejection Failure: code ServerError(-1), fixed message, the id of
the call. -/
def permFailure (version : Option Version) (id : RpcId) : Output :=
  .failure
    { jsonrpc := version,
      error :=
        { code := -1,
          message := "You are not allowed to call that method.",
          data := none },
      id := id }

/-- permissioning Middleware::on_call: MethodCall names look up their
override, everything else uses the base policy; Allow chains, Deny responds
with the fixed Failure (or nothing if the call has no id). -/
def perm_on_call (mw : PermMiddleware) (call : Call) : PermResult :=
  let access :=
    match call with
    | .methodCall c =>
      match lookupA mw.permissioned c.method with
      | some m => m.policy
      | none => mw.base
    | _ => mw.base
  match access with
  | .allow => .next
  | .deny =>
    let details := get_call_details call
    .reject (details.2.map fun id => permFailure details.1 id)

/-- Claim C5: a MethodCall with a per-method override uses that override and
otherwise the base policy; non-method calls always use the base policy;
Allow chains to next unchanged, Deny returns — without chaining — a Failure
with code -1 and the fixed message carrying the call's id, and a Deny on a
call without an id (a pure notification) produces no output. -/
theorem C5_permissioning (mw : PermMiddleware) :
    (∀ c : MethodCall, ∀ m, lookupA mw.permissioned c.method = some m →
      (m.policy = .allow → perm_on_call mw (.methodCall c) = .next) ∧
      (m.policy = .deny →
        perm_on_call mw (.methodCall c) = .reject (some (permFailure c.jsonrpc c.id)))) ∧
    (∀ c : MethodCall, lookupA mw.permissioned c.method = none →
      (mw.base = .allow → perm_on_call mw (.methodCall c) = .next) ∧
      (mw.base = .deny →
        perm_on_call mw (.methodCall c) = .reject (some (permFailure c.jsonrpc c.id)))) ∧
    (∀ n : Notification,
      (mw.base = .allow → perm_on_call mw (.notification n) = .next) ∧
      (mw.base = .deny → perm_on_call mw (.notification n) = .reject none)) ∧
    (∀ id : RpcId,
      (mw.base = .allow → perm_on_call mw (.invalid id) = .next) ∧
      (mw.base = .deny →
        perm_on_call mw (.invalid id) = .reject (some (permFailure none id)))) := by
  refine ⟨?_, ?_, ?_, ?_⟩
  · intro c m hm
    constructor <;> intro hp <;> simp [perm_on_call, hm, hp, get_call_details]
  · intro c hm
    constructor <;> intro hp <;> simp [perm_on_call, hm, hp, get_call_details]
  · intro n
    constructor <;> intro hp <;> simp [perm_on_call, hp, get_call_details]
  · intro id
    constructor <;> intro hp <;> simp [perm_on_call, hp, get_call_details]

/-! src/ethereum-proxy/plugins/accounts/transaction/src/lib.rs and the RLP
wire format of the rlp crate it drives.  Byte strings are lists of Nat
(each byte < 256 where it matters); U256 / u64 values are Nat with explicit
bounds.  The rlp crate encodes unsigned integers as their minimal big-endian
bytes, H160 as its 20 raw bytes, and Vec<u8> as the raw bytes; RlpStream
frames every value with the standard RLP headers. -/

/-- Minimal big-endian byte representation (no leading zero; 0 ↦ []). -/
def natToBE (n : Nat) : List Nat :=
  if h : n = 0 then []
  else natToBE (n / 256) ++ [n % 256]
termination_by n
decreasing_by exact Nat.div_lt_self (Nat.pos_of_ne_zero h) (by norm_num)

/-- Big-endian value of a byte string. -/
def natFromBE (l : List Nat) : Nat :=
  l.foldl (fun acc b => acc * 256 + b) 0

theorem natFromBE_go (l : List Nat) (acc : Nat) :
    l.foldl (fun acc b => acc * 256 + b) acc = acc * 256 ^ l.length + natFromBE l := by
  induction l generalizing acc with
  | nil => simp [natFromBE]
  | cons b rest ih =>
    have hl : natFromBE (b :: rest) = b * 256 ^ rest.length + natFromBE rest := by
      show (b :: rest).foldl (fun acc b => acc * 256 + b) 0 = _
      simp only [List.foldl_cons, Nat.zero_mul, Nat.zero_add]
      exact ih b
    simp only [List.foldl_cons, hl, List.length_cons]
    rw [ih (acc * 256 + b)]
    ring

theorem natFromBE_append (xs ys : List Nat) :
    natFromBE (xs ++ ys) = natFromBE xs * 256 ^ ys.length + natFromBE ys := by
  unfold natFromBE
  rw [List.foldl_append]
  exact natFromBE_go ys _

theorem natFromBE_natToBE (n : Nat) : natFromBE (natToBE n) = n := by
  induction n using Nat.strong_induction_on with
  | _ n ih =>
    by_cases h : n = 0
    · rw [h]
      simp [natToBE, natFromBE]
    · rw [natToBE, dif_neg h, natFromBE_append,
        ih (n / 256) (Nat.div_lt_self (Nat.pos_of_ne_zero h) (by norm_num))]
      simp [natFromBE]
      omega

theorem natToBE_eq_nil_iff (n : Nat) : natToBE n = [] ↔ n = 0 := by
  constructor
  · intro h
    by_contra hn
    rw [natToBE, dif_neg hn] at h
    simp at h
  · intro h
    simp [h, natToBE]

theorem natToBE_length_le (k : Nat) : ∀ n, n < 256 ^ k → (natToBE n).length ≤ k := by
  induction k with
  | zero =>
    intro n hn
    interval_cases n
    simp [natToBE]
  | succ k ih =>
    intro n hn
    by_cases h : n = 0
    · simp [h, natToBE]
    · rw [natToBE, dif_neg h]
      have : n / 256 < 256 ^ k := by
        rw [Nat.div_lt_iff_lt_mul (by norm_num : (0:Nat) < 256)]
        calc n < 256 ^ (k + 1) := hn
        _ = 256 ^ k * 256 := by rw [pow_succ]
      have := ih (n / 256) this
      simp [List.length_append]
      omega

theorem natToBE_lt (k : Nat) : ∀ n, (natToBE n).length ≤ k → n < 256 ^ k := by
  induction k with
  | zero =>
    intro n hn
    simp only [pow_zero]
    simp at hn
    have h0 := (natToBE_eq_nil_iff n).1 hn
    omega
  | succ k ih =>
    intro n hn
    by_cases h : n = 0
    · subst h
      positivity
    · rw [natToBE, dif_neg h, List.length_append] at hn
      simp at hn
      have := ih (n / 256) (by omega)
      have h2 : n % 256 < 256 := Nat.mod_lt _ (by norm_num)
      have h3 : n = 256 * (n / 256) + n % 256 := (Nat.div_add_mod n 256).symm
      calc n = 256 * (n / 256) + n % 256 := h3
      _ < 256 * (256 ^ k) := by omega
      _ = 256 ^ (k + 1) := by ring

theorem natToBE_head_ne_zero (n : Nat) : ∀ t, natToBE n ≠ 0 :: t := by
  induction n using Nat.strong_induction_on with
  | _ n ih =>
    intro t h
    by_cases hz : n = 0
    · rw [hz] at h
      simp [natToBE] at h
    · rw [natToBE, dif_neg hz] at h
      by_cases hs : n / 256 = 0
      · rw [hs] at h
        simp [natToBE] at h
        have : n % 256 = 0 := by
          rcases h with ⟨h1, _⟩
          omega
        have := Nat.div_add_mod n 256
        omega
      · have hne : natToBE (n / 256) ≠ [] := fun hc => hs ((natToBE_eq_nil_iff _).1 hc)
        cases hh : natToBE (n / 256) with
        | nil => exact hne hh
        | cons a rest =>
          rw [hh] at h
          simp at h
          obtain ⟨ha, _⟩ := h
          exact ih (n / 256) (Nat.div_lt_self (Nat.pos_of_ne_zero hz) (by norm_num)) rest
            (by rw [hh, ha])

/-- RLP length header: a single offset+len byte for short payloads (≤ 55),
otherwise offset+55+len-of-len followed by the big-endian length. -/
def rlpLenHeader (offset len : Nat) : List Nat :=
  if len ≤ 55 then [offset + len]
  else (offset + 55 + (natToBE len).length) :: natToBE len

/-- RLP byte-string encoding (rlp crate encode_value): a single byte below
0x80 stands for itself, otherwise the string is framed with a 0x80-offset
header. -/
def rlpEncStr (s : List Nat) : List Nat :=
  match s with
  | [b] => if b < 0x80 then [b] else [0x81, b]
  | _ => rlpLenHeader 0x80 s.length ++ s

/-- RLP list framing over an already-encoded payload (0xc0-offset header). -/
def rlpEncList (payload : List Nat) : List Nat :=
  rlpLenHeader 0xc0 payload.length ++ payload

/-- RLP encoding of an unsigned integer (U256 / u64 / usize impls of the rlp
crate): minimal big-endian bytes as a string. -/
def rlpEncNat (n : Nat) : List Nat :=
  rlpEncStr (natToBE n)

/-- transaction crate Transaction.  `from` (a Rust field name Lean reserves)
is rendered fromAddress; Address = H160 is its 20-byte list, U256 fields are
Nat. -/
structure Transaction where
  fromAddress : List Nat
  toAddr : Option (List Nat)
  nonce : Nat
  gas : Nat
  gas_price : Nat
  value : Nat
  data : List Nat
deriving DecidableEq

/-- transaction crate SignedTransaction (the Cow is flattened). -/
structure SignedTransaction where
  transaction : Transaction
  v : Nat
  r : Nat
  s : Nat
deriving DecidableEq

/-- rlp::Encodable for SignedTransaction — the nine appended items, in
source order nonce, gas_price, gas, to (absent to appends the empty
string), value, data, v, r, s. -/
def SignedTransaction.toRlpPayload (t : SignedTransaction) : List Nat :=
  rlpEncNat t.transaction.nonce ++
  rlpEncNat t.transaction.gas_price ++
  rlpEncNat t.transaction.gas ++
  (match t.transaction.toAddr with
    | none => rlpEncStr []
    | some a => rlpEncStr a) ++
  rlpEncNat t.transaction.value ++
  rlpEncStr t.transaction.data ++
  rlpEncNat t.v ++
  rlpEncNat t.r ++
  rlpEncNat t.s

/-- SignedTransaction::to_rlp — the nine-item list framing. -/
def SignedTransaction.to_rlp (t : SignedTransaction) : List Nat :=
  rlpEncList t.toRlpPayload

/-! The decoding side: the Rlp accessors used by
rlp::Decodable for SignedTransaction (item_count, val_at, at, is_empty,
is_data), modelled over the raw chunk of each item. -/

/-- Total length (header included) of the first RLP item of the input, with
the canonicality checks of the rlp crate PayloadInfo (no leading zero in a
long length, long lengths must exceed 55). -/
def itemLen (l : List Nat) : Option Nat :=
  match l with
  | [] => none
  | b :: rest =>
    if b < 0x80 then some 1
    else if b < 0xb8 then some (1 + (b - 0x80))
    else if b < 0xc0 then
      if (rest.take (b - 0xb7)).length = b - 0xb7 ∧ (rest.take (b - 0xb7)).headD 1 ≠ 0 ∧
          55 < natFromBE (rest.take (b - 0xb7)) then
        some (1 + (b - 0xb7) + natFromBE (rest.take (b - 0xb7)))
      else none
    else if b < 0xf8 then some (1 + (b - 0xc0))
    else
      if (rest.take (b - 0xf7)).length = b - 0xf7 ∧ (rest.take (b - 0xf7)).headD 1 ≠ 0 ∧
          55 < natFromBE (rest.take (b - 0xf7)) then
        some (1 + (b - 0xf7) + natFromBE (rest.take (b - 0xf7)))
      else none

/-- Split a list payload into its item chunks (Rlp::item_count walks the
payload the same way). -/
def splitItems : List Nat → Option (List (List Nat))
  | [] => some []
  | a :: rest =>
    match itemLen (a :: rest) with
    | none => none
    | some n =>
      if h : 0 < n ∧ n ≤ (a :: rest).length then
        match splitItems ((a :: rest).drop n) with
        | some items => some ((a :: rest).take n :: items)
        | none => none
      else none
termination_by l => l.length
decreasing_by
  simp only [List.length_drop, List.length_cons]
  omega

/-- Payload of a string item given its exact chunk (BasicDecoder::
decode_value): single byte below 0x80 stands for itself; short and long
strings strip their header; a single-byte payload below 0x80 in framed form
is non-canonical; list items are rejected (RlpExpectedToBeData). -/
def strPayload (chunk : List Nat) : Option (List Nat) :=
  match chunk with
  | [] => none
  | b :: rest =>
    if b < 0x80 then if rest = [] then some [b] else none
    else if b < 0xb8 then
      if rest.length = b - 0x80 then
        if rest.length = 1 ∧ rest.headD 0 < 0x80 then none
        else some rest
      else none
    else if b < 0xc0 then
      if (rest.take (b - 0xb7)).length = b - 0xb7 ∧ (rest.take (b - 0xb7)).headD 1 ≠ 0 ∧
          55 < natFromBE (rest.take (b - 0xb7)) ∧
          rest.length = (b - 0xb7) + natFromBE (rest.take (b - 0xb7)) then
        some (rest.drop (b - 0xb7))
      else none
    else none

/-- Decode an unsigned integer from a string item (rlp impls for U256 and
u64): no leading zero byte, at most maxLen bytes. -/
def decodeUint (maxLen : Nat) (chunk : List Nat) : Option Nat :=
  (strPayload chunk).bind fun p =>
    if p.headD 1 ≠ 0 ∧ p.length ≤ maxLen then some (natFromBE p) else none

/-- Decode an H160 address: exactly 20 payload bytes. -/
def decodeAddress (chunk : List Nat) : Option (List Nat) :=
  (strPayload chunk).bind fun p => if p.length = 20 then some p else none

/-- Decode Vec<u8>: the raw payload. -/
def decodeBytes (chunk : List Nat) : Option (List Nat) :=
  strPayload chunk

/-- Rlp::is_empty — the raw item starts with 0x80 (empty data) or 0xc0
(empty list). -/
def chunkIsEmpty (chunk : List Nat) : Bool :=
  match chunk with
  | b :: _ => b == 0x80 || b == 0xc0
  | [] => false

/-- Rlp::is_data — the raw item is a string. -/
def chunkIsData (chunk : List Nat) : Bool :=
  match chunk with
  | b :: _ => b < 0xc0
  | [] => false

/-- Top-level list access of rlp::decode: the whole buffer must be one list
item; returns the item chunks of its payload. -/
def listChunks (buf : List Nat) : Option (List (List Nat)) :=
  match buf with
  | [] => none
  | b :: rest =>
    if b < 0xc0 then none
    else if b < 0xf8 then
      if rest.length = b - 0xc0 then splitItems rest else none
    else
      if (rest.take (b - 0xf7)).length = b - 0xf7 ∧ (rest.take (b - 0xf7)).headD 1 ≠ 0 ∧
          55 < natFromBE (rest.take (b - 0xf7)) ∧
          rest.length = (b - 0xf7) + natFromBE (rest.take (b - 0xf7)) then
        splitItems (rest.drop (b - 0xf7))
      else none

/-- rlp::Decodable for SignedTransaction: exactly nine items; nonce,
gas_price, gas from items 0-2; to from item 3 (empty data ⇒ None, empty
list ⇒ error, otherwise a 20-byte address); value, data from items 4-5;
v (u64), r, s from items 6-8; from is Address::default() (all zero). -/
def decodeSignedTransaction (buf : List Nat) : Option SignedTransaction :=
  (listChunks buf).bind fun chunks =>
    match chunks with
    | [c0, c1, c2, c3, c4, c5, c6, c7, c8] =>
      (decodeUint 32 c0).bind fun nonce =>
      (decodeUint 32 c1).bind fun gas_price =>
      (decodeUint 32 c2).bind fun gas =>
      (if chunkIsEmpty c3 then
          if chunkIsData c3 then some none else none
        else (decodeAddress c3).map some).bind fun toAddr =>
      (decodeUint 32 c4).bind fun value =>
      (decodeBytes c5).bind fun data =>
      (decodeUint 8 c6).bind fun v =>
      (decodeUint 32 c7).bind fun r =>
      (decodeUint 32 c8).bind fun s =>
      some
        { transaction :=
            { fromAddress := List.replicate 20 0, toAddr := toAddr, nonce := nonce,
              gas := gas, gas_price := gas_price, value := value, data := data },
          v := v, r := r, s := s }
    | _ => none

theorem natToBE_headD_ne_zero (n : Nat) : (natToBE n).headD 1 ≠ 0 := by
  cases hh : natToBE n with
  | nil => simp
  | cons a rest =>
    have hne := natToBE_head_ne_zero n rest
    simp only [List.headD_cons]
    intro ha
    exact hne (by rw [hh, ha])

theorem natToBE_length_pos (n : Nat) (h : n ≠ 0) : 0 < (natToBE n).length := by
  cases hh : natToBE n with
  | nil => exact absurd ((natToBE_eq_nil_iff n).1 hh) h
  | cons a rest => simp

theorem rlpEncStr_nil : rlpEncStr [] = [0x80] := by
  simp [rlpEncStr, rlpLenHeader]

theorem rlpEncStr_single (b : Nat) :
    rlpEncStr [b] = if b < 0x80 then [b] else [0x81, b] := by
  simp [rlpEncStr]

theorem rlpEncStr_long (s : List Nat) (h2 : 2 ≤ s.length) :
    rlpEncStr s = rlpLenHeader 0x80 s.length ++ s := by
  match s with
  | [] => simp at h2
  | [b] => simp at h2
  | b1 :: b2 :: bs => simp [rlpEncStr]

theorem rlpEncStr_length_pos (s : List Nat) : 0 < (rlpEncStr s).length := by
  match s with
  | [] => simp [rlpEncStr_nil]
  | [b] =>
    rw [rlpEncStr_single]
    by_cases h : b < 0x80 <;> simp [h]
  | b1 :: b2 :: bs =>
    rw [rlpEncStr_long _ (by simp)]
    simp [rlpLenHeader]

theorem rlpEncStr_length_le (s : List Nat) (hs : s.length < 2 ^ 64) :
    (rlpEncStr s).length ≤ 9 + s.length := by
  match s with
  | [] => simp [rlpEncStr_nil]
  | [b] =>
    rw [rlpEncStr_single]
    by_cases h : b < 0x80 <;> simp [h]
  | b1 :: b2 :: bs =>
    rw [rlpEncStr_long _ (by simp), rlpLenHeader]
    by_cases h : (b1 :: b2 :: bs).length ≤ 55
    · rw [if_pos h]
      simp only [List.length_append, List.length_cons, List.length_nil]
      omega
    · rw [if_neg h]
      have hle : (natToBE (b1 :: b2 :: bs).length).length ≤ 8 := by
        refine natToBE_length_le 8 _ ?_
        calc (b1 :: b2 :: bs).length < 2 ^ 64 := hs
        _ = 256 ^ 8 := by norm_num
      simp only [List.length_append, List.length_cons] at hle ⊢
      omega

/-- The first RLP item of an encoded string followed by anything spans
exactly the encoding. -/
theorem itemLen_encStr (s t : List Nat) (hs : s.length < 2 ^ 64) :
    itemLen (rlpEncStr s ++ t) = some (rlpEncStr s).length := by
  match s with
  | [] =>
    rw [rlpEncStr_nil]
    simp [itemLen]
  | [b] =>
    rw [rlpEncStr_single]
    by_cases h : b < 0x80
    · simp [h, itemLen]
    · simp only [if_neg h]
      simp [itemLen]
  | b1 :: b2 :: bs =>
    rw [rlpEncStr_long _ (by simp)]
    set len := (b1 :: b2 :: bs).length with hlen
    by_cases h : len ≤ 55
    · have h1 : ¬ 0x80 + len < 0x80 := by omega
      have h2 : 0x80 + len < 0xb8 := by omega
      simp only [rlpLenHeader, if_pos h, List.cons_append, List.nil_append, itemLen,
        if_neg h1, if_pos h2, List.length_append, List.length_cons, List.length_nil]
      simp only [Option.some.injEq]
      simp only [List.length_cons] at hlen
      omega
    · have hll1 : 1 ≤ (natToBE len).length := natToBE_length_pos len (by omega)
      have hll8 : (natToBE len).length ≤ 8 := by
        refine natToBE_length_le 8 _ ?_
        calc len < 2 ^ 64 := hs
        _ = 256 ^ 8 := by norm_num
      set ll := (natToBE len).length with hll
      have h1 : ¬ 0xb7 + ll < 0x80 := by omega
      have h2 : ¬ 0xb7 + ll < 0xb8 := by omega
      have h3 : 0xb7 + ll < 0xc0 := by omega
      have hsub : 0xb7 + ll - 0xb7 = ll := by omega
      simp only [rlpLenHeader, if_neg h, List.cons_append, itemLen, if_neg h1, if_neg h2,
        if_pos h3, hsub]
      rw [List.append_assoc]
      rw [show (natToBE len ++ ((b1 :: b2 :: bs) ++ t)).take ll = natToBE len from by
        rw [hll, List.take_left]]
      rw [natFromBE_natToBE]
      rw [if_pos ⟨rfl, natToBE_headD_ne_zero len, by omega⟩]
      simp only [List.length_cons, List.length_append]
      simp only [Option.some.injEq]
      simp only [List.length_cons] at hlen
      omega

theorem splitItems_nil : splitItems [] = some [] := by
  rw [splitItems]

/-- Splitting a payload that starts with one whole item chunk peels that
chunk off. -/
theorem splitItems_cons (e t : List Nat) (he : itemLen (e ++ t) = some e.length)
    (hpos : 0 < e.length) :
    splitItems (e ++ t) = (splitItems t).map fun items => e :: items := by
  match e with
  | [] => simp at hpos
  | a :: as =>
    rw [show (a :: as) ++ t = a :: (as ++ t) from rfl]
    have he2 : itemLen (a :: (as ++ t)) = some (a :: as).length := he
    have htake : (a :: (as ++ t)).take (a :: as).length = a :: as := List.take_left _ _
    have hdrop : (a :: (as ++ t)).drop (a :: as).length = t := List.drop_left _ _
    have hguard : 0 < (a :: as).length ∧ (a :: as).length ≤ (a :: (as ++ t)).length := by
      constructor <;> simp
    rw [splitItems, he2]
    simp only [hguard, dite_true, htake, hdrop]
    cases hsp : splitItems t <;> simp [hsp]

/-- Splitting the concatenation of whole item chunks returns the chunks. -/
theorem splitItems_parts (parts : List (List Nat))
    (h : ∀ e ∈ parts, (∀ t, itemLen (e ++ t) = some e.length) ∧ 0 < e.length) :
    splitItems (parts.foldr (· ++ ·) []) = some parts := by
  induction parts with
  | nil => exact splitItems_nil
  | cons e ps ih =>
    have he := h e (List.mem_cons_self _ _)
    have hps := fun x hx => h x (List.mem_cons_of_mem _ hx)
    simp only [List.foldr_cons]
    rw [splitItems_cons e _ (he.1 _) he.2, ih hps]
    rfl

/-- Decoding the payload of an encoded string item recovers the string. -/
theorem strPayload_encStr (s : List Nat) (hs : s.length < 2 ^ 64) :
    strPayload (rlpEncStr s) = some s := by
  match s with
  | [] =>
    rw [rlpEncStr_nil]
    simp [strPayload]
  | [b] =>
    rw [rlpEncStr_single]
    by_cases h : b < 0x80
    · simp [h, strPayload]
    · simp only [if_neg h]
      have hb : ¬ (0x81 : Nat) < 0x80 := by omega
      simp [strPayload, hb, h]
  | b1 :: b2 :: bs =>
    rw [rlpEncStr_long _ (by simp)]
    set len := (b1 :: b2 :: bs).length with hlen
    have hlen2 : 2 ≤ len := by
      rw [hlen]
      simp
    by_cases h : len ≤ 55
    · have h1 : ¬ 0x80 + len < 0x80 := by omega
      have h2 : 0x80 + len < 0xb8 := by omega
      simp only [rlpLenHeader, if_pos h, List.cons_append, List.nil_append, strPayload,
        if_neg h1, if_pos h2]
      have hsub : 0x80 + len - 0x80 = len := by omega
      rw [hsub, if_pos hlen]
      rw [if_neg (by simp only [← hlen]; omega)]
    · have hll1 : 1 ≤ (natToBE len).length := natToBE_length_pos len (by omega)
      have hll8 : (natToBE len).length ≤ 8 := by
        refine natToBE_length_le 8 _ ?_
        calc len < 2 ^ 64 := hs
        _ = 256 ^ 8 := by norm_num
      set ll := (natToBE len).length with hll
      have h1 : ¬ 0xb7 + ll < 0x80 := by omega
      have h2 : ¬ 0xb7 + ll < 0xb8 := by omega
      have h3 : 0xb7 + ll < 0xc0 := by omega
      have hsub : 0xb7 + ll - 0xb7 = ll := by omega
      simp only [rlpLenHeader, if_neg h, List.cons_append, strPayload, if_neg h1, if_neg h2,
        if_pos h3, hsub]
      rw [show (natToBE len ++ (b1 :: b2 :: bs)).take ll = natToBE len from by
        rw [hll, List.take_left]]
      rw [natFromBE_natToBE]
      rw [if_pos ⟨rfl, natToBE_headD_ne_zero len, by omega, by simp [← hlen]⟩]
      rw [hll, List.drop_left]

/-- Decoding an encoded unsigned integer recovers the value. -/
theorem decodeUint_encNat (m n : Nat) (hm : m ≤ 64) (hn : n < 256 ^ m) :
    decodeUint m (rlpEncNat n) = some n := by
  have hlen : (natToBE n).length ≤ m := natToBE_length_le m n hn
  have hlt : (natToBE n).length < 2 ^ 64 := by
    have : (64 : Nat) < 2 ^ 64 := by norm_num
    omega
  unfold decodeUint rlpEncNat
  rw [strPayload_encStr _ hlt]
  simp only [Option.some_bind]
  rw [if_pos ⟨natToBE_headD_ne_zero n, hlen⟩, natFromBE_natToBE]

/-- Decoding an encoded 20-byte address recovers the address. -/
theorem decodeAddress_encStr (a : List Nat) (ha : a.length = 20) :
    decodeAddress (rlpEncStr a) = some a := by
  unfold decodeAddress
  rw [strPayload_encStr _ (by omega)]
  simp [ha]

/-- Decoding encoded raw bytes recovers the bytes. -/
theorem decodeBytes_encStr (d : List Nat) (hd : d.length < 2 ^ 64) :
    decodeBytes (rlpEncStr d) = some d :=
  strPayload_encStr d hd

/-- The encoding of a 20-byte address is its short-string framing. -/
theorem rlpEncStr_addr (a : List Nat) (ha : a.length = 20) :
    rlpEncStr a = (0x80 + 20) :: a := by
  have h2 : 2 ≤ a.length := by omega
  rw [rlpEncStr_long a h2, rlpLenHeader, if_pos (by omega), ha]
  rfl

/-- Accessing the chunks of an encoded list recovers the payload split. -/
theorem listChunks_encList (p : List Nat) (hp : p.length < 2 ^ 64) :
    listChunks (rlpEncList p) = splitItems p := by
  unfold rlpEncList
  by_cases h : p.length ≤ 55
  · have h1 : ¬ 0xc0 + p.length < 0xc0 := by omega
    have h2 : 0xc0 + p.length < 0xf8 := by omega
    simp only [rlpLenHeader, if_pos h, List.cons_append, List.nil_append, listChunks,
      if_neg h1, if_pos h2]
    rw [if_pos (by omega)]
  · have hll1 : 1 ≤ (natToBE p.length).length := natToBE_length_pos _ (by omega)
    have hll8 : (natToBE p.length).length ≤ 8 := by
      refine natToBE_length_le 8 _ ?_
      calc p.length < 2 ^ 64 := hp
      _ = 256 ^ 8 := by norm_num
    set ll := (natToBE p.length).length with hll
    have h1 : ¬ 0xf7 + ll < 0xc0 := by omega
    have h2 : ¬ 0xf7 + ll < 0xf8 := by omega
    have hsub : 0xf7 + ll - 0xf7 = ll := by omega
    simp only [rlpLenHeader, if_neg h, List.cons_append, listChunks, if_neg h1, if_neg h2,
      hsub]
    rw [show (natToBE p.length ++ p).take ll = natToBE p.length from by
      rw [hll, List.take_left]]
    rw [natFromBE_natToBE]
    rw [if_pos ⟨rfl, natToBE_headD_ne_zero _, by omega, by simp⟩]
    rw [hll, List.drop_left]

theorem itemLen_encNat_aux (m n2 : Nat) (hm : m ≤ 64) (hn2 : n2 < 256 ^ m) :
    (∀ t2, itemLen (rlpEncNat n2 ++ t2) = some (rlpEncNat n2).length) ∧
      0 < (rlpEncNat n2).length := by
  have hlen : (natToBE n2).length < 2 ^ 64 := by
    have h1 := natToBE_length_le m n2 hn2
    have h2 : (64 : Nat) < 2 ^ 64 := by norm_num
    omega
  exact ⟨fun t2 => itemLen_encStr _ t2 hlen, rlpEncStr_length_pos _⟩

theorem itemLen_encStr_aux (s2 : List Nat) (hs2 : s2.length < 2 ^ 64) :
    (∀ t2, itemLen (rlpEncStr s2 ++ t2) = some (rlpEncStr s2).length) ∧
      0 < (rlpEncStr s2).length :=
  ⟨fun t2 => itemLen_encStr _ t2 hs2, rlpEncStr_length_pos _⟩

theorem rlpEncNat_length_le (m n2 : Nat) (hm : m ≤ 64) (hn2 : n2 < 256 ^ m) :
    (rlpEncNat n2).length ≤ 9 + m := by
  have h1 := natToBE_length_le m n2 hn2
  have h2 : (natToBE n2).length < 2 ^ 64 := by
    have : (64 : Nat) < 2 ^ 64 := by norm_num
    omega
  have h3 := rlpEncStr_length_le (natToBE n2) h2
  unfold rlpEncNat
  omega

/-- Claim C7: RLP round trip of signed transactions.  Decoding the encoding
recovers every field except from, which does not participate in the
encoding and is the zero address after decode; the encoding is the RLP list
of the nine items nonce, gasPrice, gas, to, value, data, v, r, s in order,
with an absent to encoded as the empty byte string. -/
theorem C7_rlp_round_trip (t : SignedTransaction)
    (hnonce : t.transaction.nonce < 2 ^ 256)
    (hgasp : t.transaction.gas_price < 2 ^ 256)
    (hgas : t.transaction.gas < 2 ^ 256)
    (hvalue : t.transaction.value < 2 ^ 256)
    (hr : t.r < 2 ^ 256)
    (hs : t.s < 2 ^ 256)
    (hv : t.v < 2 ^ 64)
    (hto : t.transaction.toAddr = none ∨
      ∃ a, t.transaction.toAddr = some a ∧ a.length = 20)
    (hdata : t.transaction.data.length < 2 ^ 63) :
    decodeSignedTransaction t.to_rlp
      = some { t with transaction := { t.transaction with fromAddress := List.replicate 20 0 } } ∧
    t.to_rlp = rlpEncList
      (rlpEncNat t.transaction.nonce ++ rlpEncNat t.transaction.gas_price ++
        rlpEncNat t.transaction.gas ++
        (match t.transaction.toAddr with
          | none => rlpEncStr []
          | some a => rlpEncStr a) ++
        rlpEncNat t.transaction.value ++ rlpEncStr t.transaction.data ++
        rlpEncNat t.v ++ rlpEncNat t.r ++ rlpEncNat t.s) := by
  refine ⟨?_, rfl⟩
  obtain ⟨⟨fr, toA, non, ga, gp, va, da⟩, vv, rr, ss⟩ := t
  simp only at hnonce hgasp hgas hvalue hr hs hv hto hdata
  have e256 : (2 : Nat) ^ 256 = 256 ^ 32 := by norm_num
  have e64 : (2 : Nat) ^ 64 = 256 ^ 8 := by norm_num
  rw [e256] at hnonce hgasp hgas hvalue hr hs
  rw [e64] at hv
  have hda64 : da.length < 2 ^ 64 := by
    have : (2 : Nat) ^ 63 < 2 ^ 64 := by norm_num
    omega
  have hd0 : decodeUint 32 (rlpEncNat non) = some non :=
    decodeUint_encNat 32 non (by norm_num) hnonce
  have hd1 : decodeUint 32 (rlpEncNat gp) = some gp :=
    decodeUint_encNat 32 gp (by norm_num) hgasp
  have hd2 : decodeUint 32 (rlpEncNat ga) = some ga :=
    decodeUint_encNat 32 ga (by norm_num) hgas
  have hd4 : decodeUint 32 (rlpEncNat va) = some va :=
    decodeUint_encNat 32 va (by norm_num) hvalue
  have hd5 : decodeBytes (rlpEncStr da) = some da := decodeBytes_encStr da hda64
  have hd6 : decodeUint 8 (rlpEncNat vv) = some vv :=
    decodeUint_encNat 8 vv (by norm_num) hv
  have hd7 : decodeUint 32 (rlpEncNat rr) = some rr :=
    decodeUint_encNat 32 rr (by norm_num) hr
  have hd8 : decodeUint 32 (rlpEncNat ss) = some ss :=
    decodeUint_encNat 32 ss (by norm_num) hs
  have hb0 := rlpEncNat_length_le 32 non (by norm_num) hnonce
  have hb1 := rlpEncNat_length_le 32 gp (by norm_num) hgasp
  have hb2 := rlpEncNat_length_le 32 ga (by norm_num) hgas
  have hb4 := rlpEncNat_length_le 32 va (by norm_num) hvalue
  have hb5 := rlpEncStr_length_le da hda64
  have hb6 := rlpEncNat_length_le 8 vv (by norm_num) hv
  have hb7 := rlpEncNat_length_le 32 rr (by norm_num) hr
  have hb8 := rlpEncNat_length_le 32 ss (by norm_num) hs
  rcases hto with htoA | ⟨a, htoA, ha⟩ <;> subst htoA
  · -- to = None: the fourth item is the empty byte string
    have hb3 : (rlpEncStr ([] : List Nat)).length = 1 := by
      rw [rlpEncStr_nil]
      rfl
    have hbound :
        (SignedTransaction.toRlpPayload ⟨⟨fr, none, non, ga, gp, va, da⟩, vv, rr, ss⟩).length
          < 2 ^ 64 := by
      simp only [SignedTransaction.toRlpPayload, List.length_append]
      omega
    have hfold :
        SignedTransaction.toRlpPayload ⟨⟨fr, none, non, ga, gp, va, da⟩, vv, rr, ss⟩
          = ([rlpEncNat non, rlpEncNat gp, rlpEncNat ga, rlpEncStr [], rlpEncNat va,
              rlpEncStr da, rlpEncNat vv, rlpEncNat rr, rlpEncNat ss].foldr (· ++ ·) []) := by
      simp [SignedTransaction.toRlpPayload]
    have hsplit :
        splitItems
            (SignedTransaction.toRlpPayload ⟨⟨fr, none, non, ga, gp, va, da⟩, vv, rr, ss⟩)
          = some [rlpEncNat non, rlpEncNat gp, rlpEncNat ga, rlpEncStr [], rlpEncNat va,
              rlpEncStr da, rlpEncNat vv, rlpEncNat rr, rlpEncNat ss] := by
      rw [hfold]
      refine splitItems_parts _ ?_
      intro e he
      simp only [List.mem_cons, List.not_mem_nil, or_false] at he
      rcases he with rfl | rfl | rfl | rfl | rfl | rfl | rfl | rfl | rfl
      · exact itemLen_encNat_aux 32 non (by norm_num) hnonce
      · exact itemLen_encNat_aux 32 gp (by norm_num) hgasp
      · exact itemLen_encNat_aux 32 ga (by norm_num) hgas
      · exact itemLen_encStr_aux [] (by simp)
      · exact itemLen_encNat_aux 32 va (by norm_num) hvalue
      · exact itemLen_encStr_aux da hda64
      · exact itemLen_encNat_aux 8 vv (by norm_num) hv
      · exact itemLen_encNat_aux 32 rr (by norm_num) hr
      · exact itemLen_encNat_aux 32 ss (by norm_num) hs
    have hd3 : (if chunkIsEmpty (rlpEncStr []) then
          if chunkIsData (rlpEncStr []) then some none else none
        else (decodeAddress (rlpEncStr [])).map some) = some (none : Option (List Nat)) := by
      rw [rlpEncStr_nil]
      simp [chunkIsEmpty, chunkIsData]
    simp only [decodeSignedTransaction, SignedTransaction.to_rlp,
      listChunks_encList _ hbound, hsplit, Option.some_bind, hd0, hd1, hd2, hd3, hd4, hd5,
      hd6, hd7, hd8]
  · -- to = Some address
    have hb3 : (rlpEncStr a).length = 21 := by
      rw [rlpEncStr_addr a ha]
      simp [ha]
    have hbound :
        (SignedTransaction.toRlpPayload ⟨⟨fr, some a, non, ga, gp, va, da⟩, vv, rr, ss⟩).length
          < 2 ^ 64 := by
      simp only [SignedTransaction.toRlpPayload, List.length_append]
      omega
    have hfold :
        SignedTransaction.toRlpPayload ⟨⟨fr, some a, non, ga, gp, va, da⟩, vv, rr, ss⟩
          = ([rlpEncNat non, rlpEncNat gp, rlpEncNat ga, rlpEncStr a, rlpEncNat va,
              rlpEncStr da, rlpEncNat vv, rlpEncNat rr, rlpEncNat ss].foldr (· ++ ·) []) := by
      simp [SignedTransaction.toRlpPayload]
    have hsplit :
        splitItems
            (SignedTransaction.toRlpPayload ⟨⟨fr, some a, non, ga, gp, va, da⟩, vv, rr, ss⟩)
          = some [rlpEncNat non, rlpEncNat gp, rlpEncNat ga, rlpEncStr a, rlpEncNat va,
              rlpEncStr da, rlpEncNat vv, rlpEncNat rr, rlpEncNat ss] := by
      rw [hfold]
      refine splitItems_parts _ ?_
      intro e he
      simp only [List.mem_cons, List.not_mem_nil, or_false] at he
      rcases he with rfl | rfl | rfl | rfl | rfl | rfl | rfl | rfl | rfl
      · exact itemLen_encNat_aux 32 non (by norm_num) hnonce
      · exact itemLen_encNat_aux 32 gp (by norm_num) hgasp
      · exact itemLen_encNat_aux 32 ga (by norm_num) hgas
      · exact itemLen_encStr_aux a (by omega)
      · exact itemLen_encNat_aux 32 va (by norm_num) hvalue
      · exact itemLen_encStr_aux da hda64
      · exact itemLen_encNat_aux 8 vv (by norm_num) hv
      · exact itemLen_encNat_aux 32 rr (by norm_num) hr
      · exact itemLen_encNat_aux 32 ss (by norm_num) hs
    have hd3 : (if chunkIsEmpty (rlpEncStr a) then
          if chunkIsData (rlpEncStr a) then some none else none
        else (decodeAddress (rlpEncStr a)).map some) = some (some a) := by
      rw [rlpEncStr_addr a ha]
      have hne : chunkIsEmpty ((0x80 + 20) :: a) = false := by
        simp [chunkIsEmpty]
      rw [hne]
      simp only [Bool.false_eq_true, if_false]
      rw [show ((0x80 + 20) :: a) = rlpEncStr a from (rlpEncStr_addr a ha).symm]
      rw [decodeAddress_encStr a ha]
      rfl
    simp only [decodeSignedTransaction, SignedTransaction.to_rlp,
      listChunks_encList _ hbound, hsplit, Option.some_bind, hd0, hd1, hd2, hd3, hd4, hd5,
      hd6, hd7, hd8]

/-- replay_protection::add — v as u64 + 35 + chain_id * 2, wrapping u64
arithmetic (release-mode Rust semantics). -/
def replay_protection.add (v chain_id : Nat) : Nat :=
  (v + 35 + chain_id * 2) % 2 ^ 64

/-- replay_protection::chain_id — defined for stored values of at least 35. -/
def replay_protection.chain_id (v : Nat) : Option Nat :=
  if 35 ≤ v then some ((v - 35) / 2) else none

/-- SignedTransaction::new — store the replay-protected v and the big-endian
values of the 32-byte r and s words. -/
def SignedTransaction.new (transaction : Transaction) (chain_id : Nat) (v : Nat)
    (r s : List Nat) : SignedTransaction :=
  { transaction := transaction,
    v := replay_protection.add v chain_id,
    r := natFromBE r,
    s := natFromBE s }

/-- SignedTransaction::chain_id. -/
def SignedTransaction.chain_id (t : SignedTransaction) : Option Nat :=
  replay_protection.chain_id t.v

/-- SignedTransaction::hash — keccak256 of the RLP encoding; keccak is the
external tiny_keccak primitive, taken as a parameter. -/
def SignedTransaction.hash (keccak : List Nat → List Nat) (t : SignedTransaction) :
    List Nat :=
  keccak t.to_rlp

/-- transaction crate SignTransaction — a transaction together with the
chain id it is to be signed for. -/
structure SignTransaction where
  transaction : Transaction
  chain_id : Nat
deriving DecidableEq

/-- SignTransaction::hash — hash of the nine-field RLP with v set to the
chain id and r = s = 0. -/
def SignTransaction.hash (keccak : List Nat → List Nat) (st : SignTransaction) :
    List Nat :=
  SignedTransaction.hash keccak
    { transaction := st.transaction, v := st.chain_id, r := 0, s := 0 }

/-- Claim C8, counterexample: for recovery byte v = 2 and chain id c = 0 the
stored value is 37 ≥ 35, yet chain_id() returns 1 ≠ 0 — so chain_id() does
not recover c for every recovery byte whenever the stored value is at least
35. -/
theorem C8_counterexample :
    35 ≤ replay_protection.add 2 0 ∧
    replay_protection.chain_id (replay_protection.add 2 0) = some 1 ∧
    (1 : Nat) ≠ 0 := by
  refine ⟨by decide, ?_, by decide⟩
  decide

/-- Claim C8 as amended: SignedTransaction::new stores
(v + 35 + 2·chain_id) mod 2^64; chain_id() recovers the chain id for the
standard recovery bytes v ∈ {0, 1} provided the sum does not wrap (for
other v, or on wrap-around, recovery fails, see the counterexample); and
the hash submitted for signing is keccak256 of the RLP of the nine-field
list with v set to the chain id and r = s = 0. -/
theorem C8_replay_protection (tx : Transaction) (c v2 : Nat) (r s : List Nat)
    (keccak : List Nat → List Nat) :
    (SignedTransaction.new tx c v2 r s).v = (v2 + 35 + c * 2) % 2 ^ 64 ∧
    (v2 < 2 → v2 + 35 + c * 2 < 2 ^ 64 →
      (SignedTransaction.new tx c v2 r s).chain_id = some c) ∧
    SignTransaction.hash keccak { transaction := tx, chain_id := c }
      = keccak (SignedTransaction.to_rlp { transaction := tx, v := c, r := 0, s := 0 }) := by
  refine ⟨rfl, ?_, rfl⟩
  intro hv hlt
  have hmod : (v2 + 35 + c * 2) % 2 ^ 64 = v2 + 35 + c * 2 := Nat.mod_eq_of_lt hlt
  simp only [SignedTransaction.new, SignedTransaction.chain_id, replay_protection.add,
    replay_protection.chain_id, hmod]
  rw [if_pos (by omega)]
  congr 1
  omega

/-! src/ethereum-proxy/plugins/accounts/src/lib.rs — the signing middleware.
The secret key is external (ethsign); the model carries the derived local
address and takes the signing primitive, keccak, and the two serde
deserialisations as parameters.  The internal id counter is an AtomicUsize
seeded at 10 000; next_id yields Id::Num(counter) and increments. -/

/-- The seed of the internal id counter. -/
def accountsInitialCounter : Nat := 10000

/-- next_id — allocate the next internal request id. -/
def nextInternalId (counter : Nat) : RpcId × Nat :=
  (.num counter, counter + 1)

/-- How on_call routes one call: untouched passthrough to next, the
eth_accounts result rewrite, or the sendTransaction rewrite (original id
stashed, method renamed to parity_composeTransaction under the fresh
internal id). -/
inductive SignRoute where
  | passthrough : SignRoute
  | accountsPrepend : SignRoute
  | rewrite (origId : RpcId) (rewritten : MethodCall) : SignRoute
deriving DecidableEq

/-- The routing match of accounts Middleware::on_call.  hasSecret is whether
a keyfile was configured (self.secret); without it every call passes
through. -/
def routeCall (hasSecret : Bool) (internalId : RpcId) (call : Call) : SignRoute :=
  if hasSecret = false then .passthrough
  else
    match call with
    | .methodCall c =>
      if c.method = "eth_sendTransaction" ∨ c.method = "parity_postTransaction" then
        .rewrite c.id { c with method := "parity_composeTransaction", id := internalId }
      else if c.method = "eth_accounts" then .accountsPrepend
      else .passthrough
    | _ => .passthrough

/-- The local Failure built by the signing middleware: code 1 under the
original request id. -/
def err_output (jsonrpc : Option Version) (id : RpcId) (msg : String) : Output :=
  .failure
    { jsonrpc := jsonrpc,
      error := { code := 1, message := msg, data := none },
      id := id }

/-- What the rewrite path does once both upstream responses are in: either
answer the client directly, or submit the signed eth_sendRawTransaction
call upstream (whose output is then the answer). -/
inductive SignStep where
  | respond (out : Option Output) : SignStep
  | sendRaw (call : Call) : SignStep
deriving DecidableEq

/-- The continuation of the rewrite path after the composed-transaction and
chain-id responses arrived (accounts lib.rs, the async block): parse the
composed transaction (Failure outputs are forwarded unchanged;
deserialisation failures answer "Unable to construct transaction" under the
original id), parse the chain id likewise, check the from address, then
hash, sign and assemble eth_sendRawTransaction under the original id.
parseTx / parseChainId model the serde deserialisations, sign the
secp256k1 signature (v, r, s), bytesJson the hex serialisation of Bytes. -/
def handleSignResponses
    (parseTx : Json → Option Transaction)
    (parseChainId : Json → Option Nat)
    (keccak : List Nat → List Nat)
    (sign : List Nat → Nat × List Nat × List Nat)
    (address : List Nat)
    (bytesJson : List Nat → Json)
    (jsonrpc : Option Version) (origId : RpcId)
    (composeOut chainOut : Output) : SignStep :=
  match composeOut with
  | .failure f => .respond (some (.failure f))
  | .success sc =>
    match parseTx sc.result with
    | none => .respond (some (err_output jsonrpc origId "Unable to construct transaction"))
    | some tx =>
      match chainOut with
      | .failure f => .respond (some (.failure f))
      | .success cc =>
        match parseChainId cc.result with
        | none =>
          .respond (some (err_output jsonrpc origId "Unable to construct transaction"))
        | some chain_id =>
          if tx.fromAddress ≠ address then
            .respond (some (err_output jsonrpc origId "Invalid `from` address"))
          else
            let hash := SignTransaction.hash keccak { transaction := tx, chain_id := chain_id }
            let sg := sign hash
            let signed := SignedTransaction.new tx chain_id sg.1 sg.2.1 sg.2.2
            .sendRaw (.methodCall
              { jsonrpc := jsonrpc, id := origId,
                method := "eth_sendRawTransaction",
                params := .array [bytesJson signed.to_rlp] })

/-- Claim C6, counterexample to "(c) ... forwarded to the client unchanged
under the original id": the compose request goes upstream under the fresh
internal id (10000), so when upstream answers it with a Failure, that
Failure — forwarded unchanged — carries the internal id 10000, not the
original id 1. -/
theorem C6_counterexample :
    routeCall true (.num 10000)
        (.methodCall
          { jsonrpc := some .v2, method := "eth_sendTransaction",
            params := .array [], id := .num 1 })
      = .rewrite (.num 1)
          { jsonrpc := some .v2, method := "parity_composeTransaction",
            params := .array [], id := .num 10000 } ∧
    handleSignResponses (fun _ => none) (fun _ => none) (fun _ => []) (fun _ => (0, [], []))
        [] (fun _ => .null) (some .v2) (.num 1)
        (.failure
          { jsonrpc := some .v2,
            error := { code := -32601, message := "Method not found", data := none },
            id := .num 10000 })
        (.success { jsonrpc := some .v2, result := .num 1, id := .num 10001 })
      = .respond (some (.failure
          { jsonrpc := some .v2,
            error := { code := -32601, message := "Method not found", data := none },
            id := .num 10000 })) ∧
    (RpcId.num 10000 ≠ RpcId.num 1) := by
  refine ⟨by decide, by decide, by decide⟩

/-- Claim C6 as amended: in the signing rewrite path (original id stashed,
method renamed to parity_composeTransaction under the internal id):
(a) a compose or chain-id result that fails to deserialise yields a Failure
with code 1 and message "Unable to construct transaction" under the
original id; (b) a composed transaction whose from differs from the local
address yields a Failure with code 1 and message "Invalid `from` address"
under the original id; (c) a Failure output from upstream on the compose or
chain-id request is forwarded unchanged — hence under the id upstream put
in it (the internal compose id), not the original id. -/
theorem C6_signing_error_taxonomy
    (parseTx : Json → Option Transaction) (parseChainId : Json → Option Nat)
    (keccak : List Nat → List Nat) (sign : List Nat → Nat × List Nat × List Nat)
    (address : List Nat) (bytesJson : List Nat → Json)
    (jsonrpc : Option Version) (origId internalId : RpcId) (composeOut chainOut : Output) :
    (∀ c : MethodCall,
      (c.method = "eth_sendTransaction" ∨ c.method = "parity_postTransaction") →
      routeCall true internalId (.methodCall c)
        = .rewrite c.id { c with method := "parity_composeTransaction", id := internalId }) ∧
    (∀ sc, composeOut = .success sc → parseTx sc.result = none →
      handleSignResponses parseTx parseChainId keccak sign address bytesJson jsonrpc origId
          composeOut chainOut
        = .respond (some (err_output jsonrpc origId "Unable to construct transaction"))) ∧
    (∀ sc tx cc, composeOut = .success sc → parseTx sc.result = some tx →
      chainOut = .success cc → parseChainId cc.result = none →
      handleSignResponses parseTx parseChainId keccak sign address bytesJson jsonrpc origId
          composeOut chainOut
        = .respond (some (err_output jsonrpc origId "Unable to construct transaction"))) ∧
    (∀ sc tx cc cid, composeOut = .success sc → parseTx sc.result = some tx →
      chainOut = .success cc → parseChainId cc.result = some cid →
      tx.fromAddress ≠ address →
      handleSignResponses parseTx parseChainId keccak sign address bytesJson jsonrpc origId
          composeOut chainOut
        = .respond (some (err_output jsonrpc origId "Invalid `from` address"))) ∧
    (∀ f, composeOut = .failure f →
      handleSignResponses parseTx parseChainId keccak sign address bytesJson jsonrpc origId
          composeOut chainOut
        = .respond (some (.failure f))) ∧
    (∀ sc tx f, composeOut = .success sc → parseTx sc.result = some tx →
      chainOut = .failure f →
      handleSignResponses parseTx parseChainId keccak sign address bytesJson jsonrpc origId
          composeOut chainOut
        = .respond (some (.failure f))) := by
  refine ⟨?_, ?_, ?_, ?_, ?_, ?_⟩
  · intro c hc
    have : ¬ (true = false) := by decide
    simp only [routeCall, if_neg this]
    rw [if_pos hc]
  · rintro sc rfl hparse
    simp [handleSignResponses, hparse]
  · rintro sc tx cc rfl hparse rfl hchain
    simp [handleSignResponses, hparse, hchain]
  · rintro sc tx cc cid rfl hparse rfl hchain hfrom
    simp [handleSignResponses, hparse, hchain, hfrom]
  · rintro f rfl
    simp [handleSignResponses]
  · rintro sc tx f rfl hparse rfl
    simp [handleSignResponses, hparse]

/-! Claim C9 machinery: the serialisation protocol of the rewrite path.
Rewrites are indexed 0, 1, 2, … in the order in which they swapped the
receiver under self.lock (the Mutex is held only for the swap, which
linearises them).  Events carry abstract time stamps (Nat, strictly
monotone global order):
  send i    — rewrite i invokes the upstream with its compose call
              (upstream2(call) inside previous.then / the direct branch);
  resp i    — the compose response for rewrite i is consumed
              (transaction_request.await returns);
  signal i  — rewrite i fires tx.send(()) in the .then continuation.
The code yields: a response follows its request (transport order); the
signal fires only after the async block consumed the compose response; and
rewrite i+1 sends its compose only after the receiver it took — installed
by rewrite i — fired. -/
structure ComposeTrace where
  n : Nat
  send : Nat → Nat
  resp : Nat → Nat
  signal : Nat → Nat

/-- The happens-before facts the rewrite path guarantees. -/
def SerialisedChain (tr : ComposeTrace) : Prop :=
  (∀ i, i < tr.n → tr.send i < tr.resp i) ∧
  (∀ i, i < tr.n → tr.resp i < tr.signal i) ∧
  (∀ i, i + 1 < tr.n → tr.signal i < tr.send (i + 1))

/-- Claim C9: compose requests are totally ordered — for any two rewrites
i < j the compose response of i is consumed strictly before the compose
request of j is sent, so no two compose requests are ever in flight
simultaneously; and calls to any other method (and non-method calls) are
routed as plain passthrough, untouched by the serialisation lock. -/
theorem C9_compose_serialised (tr : ComposeTrace) :
    (SerialisedChain tr →
      ∀ i j, i < j → j < tr.n → tr.resp i < tr.send j) ∧
    (∀ hasSecret internalId (c : MethodCall),
      c.method ≠ "eth_sendTransaction" → c.method ≠ "parity_postTransaction" →
      c.method ≠ "eth_accounts" →
      routeCall hasSecret internalId (.methodCall c) = .passthrough) ∧
    (∀ hasSecret internalId (nt : Notification),
      routeCall hasSecret internalId (.notification nt) = .passthrough) ∧
    (∀ hasSecret internalId id,
      routeCall hasSecret internalId (.invalid id) = .passthrough) := by
  refine ⟨?_, ?_, ?_, ?_⟩
  · rintro ⟨hsr, hrs, hchain⟩ i j hij hjn
    induction j with
    | zero => omega
    | succ j ih =>
      have hstep : tr.signal j < tr.send (j + 1) := hchain j hjn
      have hrsj : tr.resp j < tr.signal j := hrs j (by omega)
      by_cases hji : i = j
      · subst hji
        omega
      · have hi : i < j := by omega
        have := ih hi (by omega)
        have hsrj : tr.send j < tr.resp j := hsr j (by omega)
        omega
  · intro hasSecret internalId c h1 h2 h3
    cases hasSecret with
    | false => simp [routeCall]
    | true => simp [routeCall, h1, h2, h3]
  · intro hasSecret internalId nt
    cases hasSecret with
    | false => simp [routeCall]
    | true => simp [routeCall]
  · intro hasSecret internalId id
    cases hasSecret with
    | false => simp [routeCall]
    | true => simp [routeCall]

/-- Witness for C1: a concrete response frame matched against a concrete
pending Regular entry is forwarded and the entry removed. -/
theorem C1_witness :
    process_message
        { nextChan := 1, pending := [(.num 1, (0, .regular))],
          subscriptions := [], sessions := [] }
        (.obj [("jsonrpc", .str "2.0"), ("id", .num 1), ("result", .str "0x10")])
      = ({ nextChan := 1, pending := [], subscriptions := [], sessions := [] },
          .responded (.num 1) 0 none) := by
  have h := (C1_reader_discrimination
      { nextChan := 1, pending := [(.num 1, (0, .regular))],
        subscriptions := [], sessions := [] }
      (.obj [("jsonrpc", .str "2.0"), ("id", .num 1), ("result", .str "0x10")])).2.1
  have h2 := (h (by decide) (.num 1) 0 .regular (by decide) (by decide)).2.1 rfl
  rw [h2]
  decide

/-- Witness for C2: after adding id 1, remove twice; the second take yields
nothing. -/
theorem C2_witness :
    (((Shared.runPendingOps sharedInit
          [.add (some (.num 1)) .regular]).remove_pending (.num 1)).1.remove_pending
        (.num 1)).2 = none :=
  (C2_pending_invariant [.add (some (.num 1)) .regular] (.num 1) .regular).2.2.2.2.2

/-- Witness for C3 (amended): the concrete subscribe-response-drop run sends
the subscribe call and then exactly one unsubscribe call. -/
theorem C3_witness :
    (subscribeScenario
        { shared := { sharedInit with sessions := [(7, ⟨true, [], []⟩)] }, written := [] }
        { jsonrpc := some .v2, method := "eth_subscribe",
          params := .array [.str "newHeads"], id := .num 2 }
        7
        ⟨"eth_subscribe", "eth_unsubscribe", "eth_subscription"⟩
        (.obj [("jsonrpc", .str "2.0"), ("id", .num 2), ("result", .str "0xdef")])).written
      = [] ++ [.methodCall
          { jsonrpc := some .v2, method := "eth_subscribe",
            params := .array [.str "newHeads"], id := .num 2 },
          mkUnsubscribeCall ⟨"eth_subscribe", "eth_unsubscribe", "eth_subscription"⟩
            (.str "0xdef")] :=
  (C3_auto_unsubscribe
    { shared := { sharedInit with sessions := [(7, ⟨true, [], []⟩)] }, written := [] }
    { jsonrpc := some .v2, method := "eth_subscribe",
      params := .array [.str "newHeads"], id := .num 2 }
    7
    ⟨"eth_subscribe", "eth_unsubscribe", "eth_subscription"⟩
    (.obj [("jsonrpc", .str "2.0"), ("id", .num 2), ("result", .str "0xdef")])
    (.str "0xdef") ⟨true, [], []⟩ (by decide) rfl (by decide) (by decide) (by decide)).1

/-- Witness for C4: a miss on a cacheable method chains and caches with
deadline now + d. -/
theorem C4_witness :
    cache_on_call
        { enabled := true,
          cacheable := [("eth_blockNumber", { name := "eth_blockNumber", eviction := .time 3 })] }
        (fun _ _ => 7) 0 { cached := [] }
        (.methodCall
          { jsonrpc := some .v2, method := "eth_blockNumber", params := .array [],
            id := .num 1 })
      = .nextAndCache 7 (.deadline 3) := by
  have h := ((C4_cache_decision
      { enabled := true,
        cacheable := [("eth_blockNumber", { name := "eth_blockNumber", eviction := .time 3 })] }
      (fun _ _ => 7) 0 { cached := [] }
      { jsonrpc := some .v2, method := "eth_blockNumber", params := .array [], id := .num 1 }
      { name := "eth_blockNumber", eviction := .time 3 } 3).1 rfl (by decide) rfl).2.1 (by decide)
  exact h.trans (by decide)

/-- Witness for C5: a per-method Deny override rejects with the fixed
Failure under the call id. -/
theorem C5_witness :
    perm_on_call
        { base := .allow,
          permissioned := [("eth_getBlock", { name := "eth_getBlock", policy := .deny })] }
        (.methodCall
          { jsonrpc := some .v2, method := "eth_getBlock", params := .array [], id := .num 1 })
      = .reject (some (permFailure (some .v2) (.num 1))) :=
  ((C5_permissioning
      { base := .allow,
        permissioned := [("eth_getBlock", { name := "eth_getBlock", policy := .deny })] }).1
    { jsonrpc := some .v2, method := "eth_getBlock", params := .array [], id := .num 1 }
    { name := "eth_getBlock", policy := .deny } (by decide)).2 rfl

/-- Witness for C6 (amended): an upstream Failure on the compose request is
forwarded unchanged. -/
theorem C6_witness :
    handleSignResponses (fun _ => none) (fun _ => none) (fun _ => []) (fun _ => (0, [], []))
        [] (fun _ => .null) none (.num 1)
        (.failure
          { jsonrpc := none,
            error := { code := -32000, message := "busy", data := none },
            id := .num 10000 })
        (.success { jsonrpc := none, result := .num 1, id := .num 10001 })
      = .respond (some (.failure
          { jsonrpc := none,
            error := { code := -32000, message := "busy", data := none },
            id := .num 10000 })) :=
  (C6_signing_error_taxonomy (fun _ => none) (fun _ => none) (fun _ => [])
      (fun _ => (0, [], [])) [] (fun _ => .null) none (.num 1) (.num 10000)
      (.failure
        { jsonrpc := none,
          error := { code := -32000, message := "busy", data := none },
          id := .num 10000 })
      (.success { jsonrpc := none, result := .num 1, id := .num 10001 })).2.2.2.2.1
    { jsonrpc := none,
      error := { code := -32000, message := "busy", data := none },
      id := .num 10000 } rfl

/-- Witness for C7: the round trip at the repository's own test vector
(nonce 5, gasPrice 15, gas 69, to = None, value 1000, empty data). -/
theorem C7_witness :
    decodeSignedTransaction
        (SignedTransaction.to_rlp
          ⟨⟨List.replicate 20 0, none, 5, 69, 15, 1000, []⟩, 245, 1, 1⟩)
      = some ⟨⟨List.replicate 20 0, none, 5, 69, 15, 1000, []⟩, 245, 1, 1⟩ :=
  (C7_rlp_round_trip ⟨⟨List.replicate 20 0, none, 5, 69, 15, 1000, []⟩, 245, 1, 1⟩
    (by norm_num) (by norm_num) (by norm_num) (by norm_num) (by norm_num) (by norm_num)
    (by norm_num) (Or.inl rfl) (by norm_num)).1

/-- Witness for C8 (amended): chain id 105 with recovery byte 0 stores 245
and is recovered. -/
theorem C8_witness :
    (SignedTransaction.new ⟨List.replicate 20 0, none, 0, 0, 0, 0, []⟩ 105 0
        (List.replicate 32 0) (List.replicate 32 0)).chain_id = some 105 :=
  ((C8_replay_protection ⟨List.replicate 20 0, none, 0, 0, 0, 0, []⟩ 105 0
      (List.replicate 32 0) (List.replicate 32 0) (fun _ => [])).2.1
    (by decide) (by decide))

/-- Witness for C9: a two-rewrite serialised trace where the first compose
response precedes the second compose request. -/
theorem C9_witness :
    (⟨2, fun i => 4 * i, fun i => 4 * i + 1, fun i => 4 * i + 2⟩ : ComposeTrace).resp 0
      < (⟨2, fun i => 4 * i, fun i => 4 * i + 1, fun i => 4 * i + 2⟩ : ComposeTrace).send 1 :=
  (C9_compose_serialised ⟨2, fun i => 4 * i, fun i => 4 * i + 1, fun i => 4 * i + 2⟩).1
    ⟨fun i _ => by change 4 * i < 4 * i + 1; omega,
      fun i _ => by change 4 * i + 1 < 4 * i + 2; omega,
      fun i _ => by change 4 * i + 2 < 4 * (i + 1); omega⟩
    0 1 (by decide) (by decide)

/-- Witness for C10: a cached Failure outcome is replayed verbatim on the
next identical call inside the window. -/
theorem C10_witness :
    cache_on_call
        { enabled := true,
          cacheable := [("eth_blockNumber", { name := "eth_blockNumber", eviction := .time 3 })] }
        (fun _ _ => 7) 1
        (cache_install { cached := [] } 7 (.deadline 3)
          (some (.failure
            { jsonrpc := none,
              error := { code := -32000, message := "busy", data := none },
              id := .num 1 })))
        (.methodCall
          { jsonrpc := some .v2, method := "eth_blockNumber", params := .array [],
            id := .num 2 })
      = .ret (some (.failure
          { jsonrpc := none,
            error := { code := -32000, message := "busy", data := none },
            id := .num 1 })) := by
  have h := (C10_cache_any_outcome
      { enabled := true,
        cacheable := [("eth_blockNumber", { name := "eth_blockNumber", eviction := .time 3 })] }
      (fun _ _ => 7) 0 1 { cached := [] }
      { jsonrpc := some .v2, method := "eth_blockNumber", params := .array [], id := .num 2 }
      { name := "eth_blockNumber", eviction := .time 3 } 3 rfl (by decide) rfl (by decide)
      (some (.failure
        { jsonrpc := none,
          error := { code := -32000, message := "busy", data := none },
          id := .num 1 }))
      (by decide)).2
  exact (by decide : (7 : Nat) = (fun (_ : String) (_ : RpcParams) => 7) "eth_blockNumber"
      (.array [])) ▸ h
